import Mathlib

/-!
Verification of the beet pipeline engine (`beet/project.py`).

A shallow embedding of the pipeline execution engine and its build context:
plugin resolution and idempotent application (`Context.apply`), scoped
configuration overrides (`Context.override`), generated-name allocation
(`Context.generate` / `Context.generate_name`), pipeline draining
(`Project.build`), project-descriptor construction (`Project.from_config`)
and the session lifecycle's module-isolation teardown (`Project.context`).

Python's mutable state is passed explicitly: each stateful operation maps a
`Context` (or process-wide `SysState`) to a new one together with an optional
propagating exception.  Plugin callables are identified by tokens (`Nat`, the
identity used by the `applied_plugins` set) and their bodies are small
statement lists interpreted by a fuel-indexed, structurally recursive
interpreter, so that everything evaluates inside the kernel.

External collaborators (the textual import mechanism `import_from_string`,
the two pack classes, the cache) live outside `src/beet/project.py`; they are
abstracted exactly at the interface the engine consumes, as the spec
describes them in its external-interface section.
-/

namespace Beet

/-- Values stored in the `meta` mapping (a Python dict).  Claims only need
integers and strings. -/
inductive Val where
  | int (n : Int)
  | str (s : String)
deriving DecidableEq

/-- Python dict lookup (`d.get(k)` / `d[k]`) on an association list. -/
def dictGet {α : Type} : List (String × α) → String → Option α
  | [], _ => Option.none
  | kv :: rest, k => if kv.1 = k then Option.some kv.2 else dictGet rest k

/-- Python dict single-key assignment `d[k] = v`: updates the key in place if
present (preserving insertion order), otherwise appends it. -/
def dictSet {α : Type} : List (String × α) → String → α → List (String × α)
  | [], k, v => [(k, v)]
  | kv :: rest, k, v => if kv.1 = k then (k, v) :: rest else kv :: dictSet rest k v

/-- Python `d.update(kvs)`: assign every supplied pair in order. -/
def dictUpdate {α : Type} : List (String × α) → List (String × α) → List (String × α)
  | d, [] => d
  | d, kv :: rest => dictUpdate (dictSet d kv.1 kv.2) rest

/-! ## A model of Python `str.format` restricted to the single keyword `id`

`Context.generate_name` calls `template.format(id=n)`.  The model covers the
documented behaviour the engine relies on: literal text, the `{{` and `}}`
escapes, a bare `{id}` replacement field and `{id:spec}` with an integer
format spec of shape `[0][width][d|x|X]` (so in particular the default
`08X`).  Any other replacement field, conversion, nested field or stray
brace is a format error, as it would raise in Python.  (Python's full spec
mini-language is larger; the extra forms are never produced by this
repository.) -/

/-- Big-endian base-`b` digits, driven by explicit fuel so the definition is
structural and kernel-evaluable.  `fuel > n` always suffices. -/
def natToBaseAux (b : Nat) : Nat → Nat → List Nat
  | 0, n => [n]
  | fuel+1, n => if n < b then [n] else natToBaseAux b fuel (n / b) ++ [n % b]

/-- Big-endian base-`b` digits of `n` (for `b ≥ 2`). -/
def natToBase (b n : Nat) : List Nat := natToBaseAux b n n

/-- Value of a big-endian digit list in base `b`. -/
def valBase (b : Nat) (l : List Nat) : Nat := l.foldl (fun a d => a * b + d) 0

/-- The numeral character for a digit, uppercase for `10..15`. -/
def digitCharU (d : Nat) : Char := (Nat.digitChar d).toUpper

/-- A parsed integer format spec `[0][width][d|x|X]` for the `id` field. -/
structure IdSpec where
  zeroPad : Bool
  width : Nat
  /-- 0 = decimal, 1 = lowercase hex, 2 = uppercase hex. -/
  baseKind : Nat
deriving DecidableEq

/-- Digit characters read as a number (for the width part of a spec). -/
def charsToNat (l : List Char) : Nat :=
  l.foldl (fun a c => a * 10 + (c.toNat - 48)) 0

/-- Parse a format spec of shape `[0][width][d|x|X]`; anything else is
unsupported and yields `none` (a format error). -/
def parseIdSpec (spec : List Char) : Option IdSpec :=
  match spec with
  | '0' :: r => parseIdSpecBody true r
  | r => parseIdSpecBody false r
where
  parseIdSpecBody (zeroPad : Bool) (r : List Char) : Option IdSpec :=
    let widthChars := r.takeWhile (fun c => c.isDigit)
    let rest := r.dropWhile (fun c => c.isDigit)
    let width := charsToNat widthChars
    match rest with
    | [] => Option.some ⟨zeroPad, width, 0⟩
    | ['d'] => Option.some ⟨zeroPad, width, 0⟩
    | ['x'] => Option.some ⟨zeroPad, width, 1⟩
    | ['X'] => Option.some ⟨zeroPad, width, 2⟩
    | _ => Option.none

/-- Render the integer `n` according to a parsed spec: base conversion, then
left padding with `0` or a space up to the requested width. -/
def renderId (sp : IdSpec) (n : Nat) : List Char :=
  let digits := match sp.baseKind with
    | 0 => (natToBase 10 n).map Nat.digitChar
    | 1 => (natToBase 16 n).map Nat.digitChar
    | _ => (natToBase 16 n).map digitCharU
  let fill := if sp.zeroPad then '0' else ' '
  List.replicate (sp.width - digits.length) fill ++ digits

/-- Render one replacement field (the text between `{` and `}`): the field
name must be `id`, optionally followed by `:` and a supported spec. -/
def renderField (field : List Char) (n : Nat) : Option (List Char) :=
  let name := field.takeWhile (fun c => !(c = ':'))
  let rest := field.dropWhile (fun c => !(c = ':'))
  if name = ['i', 'd'] then
    match rest with
    | [] => (parseIdSpec []).map (fun sp => renderId sp n)
    | _ :: specChars => (parseIdSpec specChars).map (fun sp => renderId sp n)
  else Option.none

/-- The `str.format` scanner.  The `Option (List Char)` mode is `none` while
scanning literal text and `some acc` while collecting a replacement field
(`acc` holds the field characters in reverse).  One unit of fuel is spent per
input character, so `fuel ≥ length` always suffices; a run out of fuel is a
format error (unreachable from `pyFormat`). -/
def fmtGo (idVal : Nat) : Nat → Option (List Char) → List Char → Except Unit (List Char)
  | _, Option.none, [] => Except.ok []
  | _, Option.some _, [] => Except.error ()
  | 0, _, _ :: _ => Except.error ()
  | fuel+1, Option.none, ch :: rest =>
    if ch = '{' then
      match rest with
      | '{' :: rest2 =>
        match fmtGo idVal fuel Option.none rest2 with
        | Except.ok s => Except.ok ('{' :: s)
        | Except.error e => Except.error e
      | _ => fmtGo idVal fuel (Option.some []) rest
    else if ch = '}' then
      match rest with
      | '}' :: rest2 =>
        match fmtGo idVal fuel Option.none rest2 with
        | Except.ok s => Except.ok ('}' :: s)
        | Except.error e => Except.error e
      | _ => Except.error ()
    else
      match fmtGo idVal fuel Option.none rest with
      | Except.ok s => Except.ok (ch :: s)
      | Except.error e => Except.error e
  | fuel+1, Option.some acc, ch :: rest =>
    if ch = '}' then
      match renderField acc.reverse idVal with
      | Option.none => Except.error ()
      | Option.some out =>
        match fmtGo idVal fuel Option.none rest with
        | Except.ok s => Except.ok (out ++ s)
        | Except.error e => Except.error e
    else fmtGo idVal fuel (Option.some (ch :: acc)) rest

/-- `template.format(id=idVal)`. -/
def pyFormat (t : String) (idVal : Nat) : Except Unit String :=
  match fmtGo idVal t.data.length Option.none t.data with
  | Except.ok s => Except.ok (String.mk s)
  | Except.error e => Except.error e

/-- Python `s.replace(pat, rep)` on character lists (all non-overlapping
occurrences, left to right), fuel-structural; `fuel ≥ length` suffices.
An empty pattern is never used by the engine and is treated as a no-op. -/
def replaceCharsAux (pat rep : List Char) : Nat → List Char → List Char
  | 0, s => s
  | _+1, [] => []
  | fuel+1, c :: rest =>
    if pat.isPrefixOf (c :: rest) ∧ pat ≠ [] then
      rep ++ replaceCharsAux pat rep fuel ((c :: rest).drop pat.length)
    else
      c :: replaceCharsAux pat rep fuel rest

/-- Python `s.replace(pat, rep)`. -/
def strReplace (s pat rep : String) : String :=
  String.mk (replaceCharsAux pat.data rep.data s.data.length s.data)

/-- Python `s.lower()` (ASCII, which covers the type names used here). -/
def strLower (s : String) : String := String.mk (s.data.map Char.toLower)

/-- Boolean prefix test on character lists (`a.startswith(b)` taking the
pattern first). -/
def charsBegin : List Char → List Char → Bool
  | [], _ => true
  | _ :: _, [] => false
  | p :: ps, c :: cs => p == c && charsBegin ps cs

/-- Python `s.startswith(pat)`. -/
def strBegins (s pat : String) : Bool := charsBegin pat.data s.data

/-! ## Plugins, exceptions and the build context

A plugin callable is identified by a token (`Nat`): Python memoises plugins
by object identity, so the model keys everything on that identity.  A
`PluginSpec` is either a callable or a textual locator string, exactly as in
`PluginSpec = Union[Plugin, str]`. -/

/-- A plugin callable's identity. -/
abbrev Plugin := Nat

/-- `PluginSpec = Union[Plugin, str]`. -/
inductive PluginSpec where
  | callable (p : Plugin)
  | byName (s : String)
deriving DecidableEq

/-- The payload of a raised error: the offending spec (for import failures),
the offending callable (for wrapped plugin failures), or arbitrary data for
errors constructed by plugins themselves. -/
inductive ErrArg where
  | spec (s : PluginSpec)
  | callable (p : Plugin)
  | custom (n : Nat)
deriving DecidableEq

/-- Python exceptions as far as `Context.apply` distinguishes them:
`PluginError`, its subclass `PluginImportError`, and every other exception
(`other`).  `cause` is the `__cause__` chain installed by `raise ... from`. -/
inductive Exc where
  | pluginError (arg : ErrArg) (cause : Option Exc)
  | pluginImportError (arg : ErrArg) (cause : Option Exc)
  | other (tag : Nat) (cause : Option Exc)

/-- `isinstance(e, PluginError)`: `PluginImportError` is a subclass of
`PluginError`, so both match the `except PluginError` clause. -/
def isPluginError : Exc → Bool
  | Exc.pluginError _ _ => true
  | Exc.pluginImportError _ _ => true
  | Exc.other _ _ => false

/-- What a plugin body may do to the context, as a statement: append a
reference to the pipeline queue, re-enter `Context.apply`, or raise. -/
inductive Stmt where
  | appendPipeline (s : PluginSpec)
  | applyStmt (s : PluginSpec) (force : Bool)
  | raiseStmt (e : Exc)

/-- The association from a concrete item type to the pack that stores it.

Modelled from the spec: the pack classes live outside `src/beet/project.py`;
the spec describes a pack as exposing "a mapping from generated name to item
and a declared association from concrete item type to pack", consumed as
`type(item) in pack.namespace_type.container_fields`. -/
structure ItemType where
  /-- The Python type's `__name__`. -/
  name : String
deriving DecidableEq

/-- A content item: its concrete type plus opaque payload.

Modelled from the spec: items are opaque to the engine except for their
concrete type, which routes them to a pack. -/
structure Item where
  type : ItemType
  payload : Nat
deriving DecidableEq

/-- One of the two output packs, at the interface `Context.generate` uses.

Modelled from the spec: a pack declares its accepted item types
(`container_fields`) and stores a name-to-item mapping (`pack[name] = item`). -/
structure PackModel where
  container_fields : List ItemType
  entries : List (String × Item)
deriving DecidableEq

/-- `pack[name] = item`. -/
def packInsert (p : PackModel) (name : String) (item : Item) : PackModel :=
  { p with entries := dictSet p.entries name item }

/-- The build context (`Context` NamedTuple).  `directory`,
`output_directory`, `cache` and `current_time` are opaque external resources
never consulted by the engine's logic and are omitted.  `trace` is ghost
instrumentation recording each plugin invocation as `(identity, force)`, so
that invocation counts can be stated; the engine never reads it. -/
structure Context where
  meta : List (String × Val)
  pipeline : List PluginSpec
  applied_plugins : List Plugin
  counters : List (String × Nat)
  assets : PackModel
  data : PackModel
  beet_default : String
  trace : List (Plugin × Bool)
deriving DecidableEq

/-- Python set `add` on the identity list: a no-op when already present. -/
def addId (l : List Plugin) (p : Plugin) : List Plugin :=
  if p ∈ l then l else l ++ [p]

/-- The process environment: `import_from_string` (external, may raise) and
the association from a callable's identity to its body. -/
structure Env where
  resolve : String → String → Except Exc Plugin
  progs : Plugin → List Stmt

/-- The resolution step at the top of `Context.apply`: a callable passes
through unchanged; a string is resolved by `import_from_string`, with
`except PluginError: raise` and every other failure re-raised as
`PluginImportError(plugin) from exc`. -/
def resolveSpec (env : Env) (c : Context) (spec : PluginSpec) : Except Exc Plugin :=
  match spec with
  | PluginSpec.callable f => Except.ok f
  | PluginSpec.byName s =>
    match env.resolve s c.beet_default with
    | Except.ok f => Except.ok f
    | Except.error e =>
      if isPluginError e then Except.error e
      else Except.error (Exc.pluginImportError (ErrArg.spec spec) (Option.some e))

/-- The context just before `func(self)` runs: the callable's identity is
recorded into `applied_plugins` *before* invocation, and the (ghost) trace
logs the invocation. -/
def invokeState (c : Context) (f : Plugin) (force : Bool) : Context :=
  { c with applied_plugins := addId c.applied_plugins f
         , trace := c.trace ++ [(f, force)] }

/-- A unit of interpreter work: run `Context.apply`, a statement list, or a
single statement. -/
inductive Task where
  | applyT (spec : PluginSpec) (force : Bool)
  | stmtsT (stmts : List Stmt)
  | stmtT (s : Stmt)

/-- The interpreter.  `run fuel env task c = some (c', e)` means the task
terminates in state `c'`, with `e` the exception propagating out of it (if
any); `none` means the fuel ran out.  The `applyT` case is the body of
`Context.apply`: resolve (errors propagate), idempotent skip unless forced,
record identity, invoke, and wrap non-`PluginError` failures as
`PluginError(func) from exc`; statement sequencing aborts at the first
propagating exception, as Python control flow does. -/
def run : Nat → Env → Task → Context → Option (Context × Option Exc)
  | 0, _, _, _ => Option.none
  | fuel+1, env, Task.applyT spec force, c =>
    match resolveSpec env c spec with
    | Except.error e => Option.some (c, Option.some e)
    | Except.ok f =>
      if f ∈ c.applied_plugins ∧ force = false then
        Option.some (c, Option.none)
      else
        match run fuel env (Task.stmtsT (env.progs f)) (invokeState c f force) with
        | Option.none => Option.none
        | Option.some (c2, Option.none) => Option.some (c2, Option.none)
        | Option.some (c2, Option.some e) =>
          Option.some (c2, Option.some
            (if isPluginError e then e
             else Exc.pluginError (ErrArg.callable f) (Option.some e)))
  | _+1, _, Task.stmtsT [], c => Option.some (c, Option.none)
  | fuel+1, env, Task.stmtsT (s :: rest), c =>
    match run fuel env (Task.stmtT s) c with
    | Option.none => Option.none
    | Option.some (c1, Option.some e) => Option.some (c1, Option.some e)
    | Option.some (c1, Option.none) => run fuel env (Task.stmtsT rest) c1
  | fuel+1, env, Task.stmtT s, c =>
    match s with
    | Stmt.appendPipeline sp => Option.some ({ c with pipeline := c.pipeline ++ [sp] }, Option.none)
    | Stmt.raiseStmt e => Option.some (c, Option.some e)
    | Stmt.applyStmt sp force => run fuel env (Task.applyT sp force) c

/-- `Context.apply(plugin, force=False)`, with explicit environment and fuel. -/
def Context.apply (c : Context) (env : Env) (fuel : Nat) (spec : PluginSpec)
    (force : Bool := false) : Option (Context × Option Exc) :=
  run fuel env (Task.applyT spec force) c

/-- The `meta` state right after `self.meta.update(**kwargs)` on entering
`Context.override`. -/
def overrideEnter (c : Context) (kwargs : List (String × Val)) : Context :=
  { c with meta := dictUpdate c.meta kwargs }

/-- The backup captured on entering `Context.override`:
`{key: self.meta[key] for key in kwargs & self.meta.keys()}`. -/
def overrideBackup (c : Context) (kwargs : List (String × Val)) : List (String × Val) :=
  kwargs.filterMap (fun kv =>
    match dictGet c.meta kv.1 with
    | Option.some v => Option.some (kv.1, v)
    | Option.none => Option.none)

/-- `Context.override(**kwargs)` around an arbitrary scope body.  The
`try/finally` of the context manager applies the backup on every exit path,
while the body's exception (if any) keeps propagating. -/
def Context.override (c : Context) (kwargs : List (String × Val))
    (body : Context → Context × Option Exc) : Context × Option Exc :=
  let r := body (overrideEnter c kwargs)
  ({ r.1 with meta := dictUpdate r.1.meta (overrideBackup c kwargs) }, r.2)

/-- Errors arising inside `Context.generate` / `generate_name`:
`StopIteration` from an exhausted `next(...)`, `AttributeError` from calling
`.replace` on a non-string template, and formatting failures. -/
inductive GenError where
  | stopIteration
  | attributeError
  | formatError
deriving DecidableEq

/-- `defaultdict(int)` read: a missing counter is `0`. -/
def countersGet (counters : List (String × Nat)) (t : String) : Nat :=
  (dictGet counters t).getD 0

/-- `Context.generate_name(template)`: increment `counters[template]` first,
then format the template with the new value bound to `id`. -/
def Context.generate_name (c : Context) (template : String) :
    Context × Except GenError String :=
  let n := countersGet c.counters template + 1
  let c' := { c with counters := dictSet c.counters template n }
  (c', match pyFormat template n with
       | Except.ok s => Except.ok s
       | Except.error _ => Except.error GenError.formatError)

/-- The default name template of `Context.generate`. -/
def defaultTemplate : String := "beet:generated/\x7btype\x7d_\x7bid:08X\x7d"

/-- `self.meta.get("generate_template", default)`, which must then support
`.replace`: a present non-string value raises `AttributeError`. -/
def genTemplate (c : Context) : Except GenError String :=
  match dictGet c.meta ("generate_template") with
  | Option.none => Except.ok defaultTemplate
  | Option.some (Val.str s) => Except.ok s
  | Option.some (Val.int _) => Except.error GenError.attributeError

/-- `Context.generate(item)`: route to the first pack of
`(assets, data)` whose container-field type set declares the item's concrete
type (`StopIteration` if neither), substitute the lowercased type name into
the template, allocate a name, insert the item and return the name. -/
def Context.generate (c : Context) (item : Item) : Context × Except GenError String :=
  match (if item.type ∈ c.assets.container_fields then Option.some true
         else if item.type ∈ c.data.container_fields then Option.some false
         else Option.none) with
  | Option.none => (c, Except.error GenError.stopIteration)
  | Option.some intoAssets =>
    match genTemplate c with
    | Except.error e => (c, Except.error e)
    | Except.ok template =>
      let tpl := strReplace template ("\x7btype\x7d") (strLower item.type.name)
      let r := c.generate_name tpl
      match r.2 with
      | Except.error e => (r.1, Except.error e)
      | Except.ok name =>
        if intoAssets then
          ({ r.1 with assets := packInsert r.1.assets name item }, Except.ok name)
        else
          ({ r.1 with data := packInsert r.1.data name item }, Except.ok name)

/-! ## Project descriptor, build loop and session lifecycle -/

/-- The serialized config document, at the fields the descriptor reads.
JSON parsing and path resolution are external. -/
structure ProjectConfig where
  name : Option String
  description : Option String
  author : Option String
  version : Option String
  meta : List (String × Val)
  pipeline : List String
  prelude : Option Bool

/-- The project descriptor (the `Project` dataclass), at the fields the
engine's claims concern.  The per-pack naming/format/packaging options and
their promotion from `meta` configure the external pack constructors and are
not modelled. -/
structure Project where
  name : String
  description : String
  author : String
  version : String
  pipeline : List String
  meta : List (String × Val)

/-- `Project.from_config`: defaults for the identity fields, and the
`beet.prelude` bootstrap reference inserted at the front of the pipeline
unless `prelude` is false. -/
def Project.from_config (cfg : ProjectConfig) : Project :=
  let pipeline :=
    if cfg.prelude.getD true then ("beet.prelude") :: cfg.pipeline else cfg.pipeline
  { name := cfg.name.getD ("Untitled")
  , description := cfg.description.getD ("Generated by beet")
  , author := cfg.author.getD ("Unknown")
  , version := cfg.version.getD ("0.0.0")
  , pipeline := pipeline
  , meta := cfg.meta }

/-- `Project.build`'s drain loop: while the context's pipeline queue is
non-empty, pop the front-most reference and apply it (non-forced); a
propagating error aborts the loop.  Fuel-indexed like `run`. -/
def Project.build : Nat → Env → Context → Option (Context × Option Exc)
  | 0, _, _ => Option.none
  | fuel+1, env, c =>
    match c.pipeline with
    | [] => Option.some (c, Option.none)
    | spec :: rest =>
      match run fuel env (Task.applyT spec false) { c with pipeline := rest } with
      | Option.none => Option.none
      | Option.some (c1, Option.some e) => Option.some (c1, Option.some e)
      | Option.some (c1, Option.none) => Project.build fuel env c1

/-- The process-wide interpreter state touched by the session lifecycle:
`sys.path` and `sys.modules` (module name to its `__file__`, when any). -/
structure SysState where
  path : List String
  modules : List (String × Option String)
deriving DecidableEq

/-- Python `list.remove`: drop the first occurrence. -/
def removeFirst : List String → String → List String
  | [], _ => []
  | a :: rest, x => if a = x then rest else a :: removeFirst rest x

/-- Whether a loaded module's backing `__file__` starts with the project
directory path (the eviction criterion `filename.startswith(path_entry)`);
modules without a `__file__` never match. -/
def moduleUnder (dir : String) (m : String × Option String) : Bool :=
  match m.2 with
  | Option.some f => strBegins f dir
  | Option.none => false

/-- The state after step 3 of session entry: the project directory appended
to the module search path. -/
def enterState (s : SysState) (dir : String) : SysState :=
  { s with path := s.path ++ [dir] }

/-- `Project.context`'s module-isolation lifecycle around an arbitrary
session body: append the project directory to `sys.path`; on exit (the
`finally` block, so on every exit path) remove it again and evict every
loaded module whose `__file__` starts with the project directory.  Directory
creation, variable substitution and the cache are external resources not
touched by this claim's state. -/
def Project.context (dir : String) (body : SysState → SysState × Option Exc)
    (s : SysState) : SysState × Option Exc :=
  let r := body (enterState s dir)
  let s2 := { r.1 with path := removeFirst r.1.path dir }
  let s3 := { s2 with modules := s2.modules.filter (fun m => !(moduleUnder dir m)) }
  (s3, r.2)

/-! ## Ghost-trace counting -/

/-- The number of recorded invocations of callable `p` with force flag `f`. -/
def countEv (p : Plugin) (f : Bool) : List (Plugin × Bool) → Nat
  | [] => 0
  | ev :: rest => (if ev.1 = p ∧ ev.2 = f then 1 else 0) + countEv p f rest

/-- How one interpreter step may evolve the context: the applied-identity set
only grows, the invocation log only extends, and no identity that was already
applied receives any further non-forced invocation. -/
def Evolves (c c' : Context) : Prop :=
  (∀ x, x ∈ c.applied_plugins → x ∈ c'.applied_plugins) ∧
  (∃ t, c'.trace = c.trace ++ t) ∧
  (∀ p, p ∈ c.applied_plugins → countEv p false c'.trace = countEv p false c.trace)

/-- A character list with no brace characters (so `str.format` treats it as
pure literal text). -/
def braceFreeL (l : List Char) : Bool :=
  l.all (fun c => !(c = '{') && !(c = '}'))

/-- A template made of literal text around a single `id` replacement field:
`P{id}S` or `P{id:spec}S`. -/
def idTemplate (P spec S : List Char) : List Char :=
  P ++ ('{' :: (('i' :: 'd' :: (if spec.isEmpty then [] else ':' :: spec)) ++ ('}' :: S)))

/-! ## Concrete fixtures used by the closed witness theorems -/

/-- A fresh, empty build context. -/
def ctx0 : Context :=
  ⟨[], [], [], [], ⟨[], []⟩, ⟨[], []⟩, ("beet_default"), []⟩

/-- An environment whose plugins all have empty bodies. -/
def envId : Env := ⟨fun _ _ => Except.ok 0, fun _ => []⟩

/-- First non-forced application of callable `0`. -/
def cW1 : Context :=
  ((ctx0.apply envId 2 (PluginSpec.callable 0) false).getD (ctx0, Option.none)).1

/-- Second non-forced application of callable `0`. -/
def cW2 : Context :=
  ((cW1.apply envId 2 (PluginSpec.callable 0) false).getD (ctx0, Option.none)).1

/-- Forced re-application of callable `0`. -/
def cW3 : Context :=
  ((cW2.apply envId 2 (PluginSpec.callable 0) true).getD (ctx0, Option.none)).1

/-- An environment where plugin `0` appends callable `1` to the pipeline. -/
def envChain : Env :=
  ⟨fun _ _ => Except.ok 0,
   fun i => if i = 0 then [Stmt.appendPipeline (PluginSpec.callable 1)] else []⟩

/-- A context whose declared pipeline is just callable `0`. -/
def ctxPipe : Context := { ctx0 with pipeline := [PluginSpec.callable 0] }

/-- The finished build over `envChain` from `ctxPipe`. -/
def cBuild : Context :=
  ((Project.build 5 envChain ctxPipe).getD (ctx0, Option.none)).1

/-- An environment exercising every error path of `Context.apply`: the
locator `perr` fails resolution with a `PluginError`, `boom` fails with a
generic error; plugin `1` raises a generic error, plugin `2` raises a
`PluginError`. -/
def envErr : Env :=
  ⟨fun s _ =>
     if s = ("perr") then Except.error (Exc.pluginError (ErrArg.custom 1) Option.none)
     else if s = ("boom") then Except.error (Exc.other 7 Option.none)
     else Except.ok 0,
   fun i =>
     if i = 1 then [Stmt.raiseStmt (Exc.other 3 Option.none)]
     else if i = 2 then [Stmt.raiseStmt (Exc.pluginError (ErrArg.custom 2) Option.none)]
     else []⟩

/-- The invocation state of plugin `1` over `ctx0`. -/
def cInv1 : Context := invokeState ctx0 1 false

/-- The invocation state of plugin `2` over `ctx0`. -/
def cInv2 : Context := invokeState ctx0 2 false

/-- A context whose `meta` is `{"a": 1}`. -/
def ctxM : Context := { ctx0 with meta := [(("a"), Val.int 1)] }

/-- The override options `a=2, b=3`. -/
def kwW : List (String × Val) := [(("a"), Val.int 2), (("b"), Val.int 3)]

/-- A scope body that returns normally without touching the context. -/
def bodyId : Context → Context × Option Exc := fun c => (c, Option.none)

/-- A scope body through which a generic error propagates. -/
def bodyRaise : Context → Context × Option Exc :=
  fun c => (c, Option.some (Exc.other 9 Option.none))

/-- A single-`id` template with literal prefix and the default `08X` spec. -/
def tW : String := "beet:generated/thing_\x7bid:08X\x7d"

/-- The context after one `generate_name` call on `tW`. -/
def cN1 : Context := (ctx0.generate_name tW).1

/-- The item type named `Function`. -/
def tyF : ItemType := ⟨("Function")⟩

/-- An item of type `Function`. -/
def itemW : Item := ⟨tyF, 7⟩

/-- A context whose assets pack declares the `Function` type. -/
def ctxG : Context := { ctx0 with assets := ⟨[tyF], []⟩ }

/-- The context after generating `itemW` in `ctxG`. -/
def cG : Context := (ctxG.generate itemW).1

/-- A config with no `prelude` key. -/
def cfgNone : ProjectConfig :=
  ⟨Option.none, Option.none, Option.none, Option.none, [], [("a"), ("b")], Option.none⟩

/-- A config with `prelude: true`. -/
def cfgTrue : ProjectConfig :=
  ⟨Option.none, Option.none, Option.none, Option.none, [], [("a"), ("b")], Option.some true⟩

/-- A config with `prelude: false`. -/
def cfgFalse : ProjectConfig :=
  ⟨Option.none, Option.none, Option.none, Option.none, [], [("a"), ("b")], Option.some false⟩

/-- A process state with one search-path entry and three loaded modules: one
backed by a file under `/proj`, one under `/other`, one without a file. -/
def sysW : SysState :=
  ⟨[("x")],
   [(("m1"), Option.some ("/proj/a.py")),
    (("m2"), Option.some ("/other/b.py")),
    (("m3"), Option.none)]⟩

/-- A session body that returns normally without touching the state. -/
def bodyIdS : SysState → SysState × Option Exc := fun st => (st, Option.none)

/-- A session body through which a generic error propagates. -/
def bodyErrS : SysState → SysState × Option Exc :=
  fun st => (st, Option.some (Exc.other 5 Option.none))

/-! ## Dictionary lemmas -/

theorem dictGet_dictSet_self {α : Type} (d : List (String × α)) (k : String) (v : α) :
    dictGet (dictSet d k v) k = Option.some v := by
  induction d with
  | nil => simp [dictGet, dictSet]
  | cons kv rest ih =>
    by_cases h : kv.1 = k
    · simp [dictSet, h, dictGet]
    · simp [dictSet, h, dictGet, ih]

theorem dictGet_dictSet_ne {α : Type} (d : List (String × α)) (k k' : String) (v : α)
    (h : k' ≠ k) : dictGet (dictSet d k v) k' = dictGet d k' := by
  induction d with
  | nil =>
    simp only [dictSet, dictGet]
    rw [if_neg (fun hh : k = k' => h hh.symm)]
  | cons kv rest ih =>
    simp only [dictSet]
    by_cases hk : kv.1 = k
    · have hkk' : ¬ kv.1 = k' := by rw [hk]; intro hh; exact h hh.symm
      rw [if_pos hk]
      simp only [dictGet]
      rw [if_neg (fun hh : k = k' => h hh.symm), if_neg hkk']
    · rw [if_neg hk]
      simp only [dictGet]
      by_cases hk2 : kv.1 = k'
      · rw [if_pos hk2, if_pos hk2]
      · rw [if_neg hk2, if_neg hk2]
        exact ih

theorem dictGet_dictUpdate_notMem {α : Type} (kvs d : List (String × α)) (k : String)
    (h : k ∉ kvs.map Prod.fst) : dictGet (dictUpdate d kvs) k = dictGet d k := by
  induction kvs generalizing d with
  | nil => rfl
  | cons kv rest ih =>
    simp only [List.map_cons, List.mem_cons] at h
    push_neg at h
    simp only [dictUpdate]
    rw [ih _ h.2, dictGet_dictSet_ne _ _ _ _ h.1]

theorem dictGet_dictUpdate_mem {α : Type} (kvs d : List (String × α)) (k : String) (v : α)
    (hnd : (kvs.map Prod.fst).Nodup) (h : (k, v) ∈ kvs) :
    dictGet (dictUpdate d kvs) k = Option.some v := by
  induction kvs generalizing d with
  | nil => cases h
  | cons kv rest ih =>
    simp only [List.map_cons, List.nodup_cons] at hnd
    rcases List.mem_cons.mp h with h1 | h1
    · cases h1.symm
      simp only [dictUpdate]
      rw [dictGet_dictUpdate_notMem _ _ _ hnd.1]
      exact dictGet_dictSet_self d k v
    · simp only [dictUpdate]
      exact ih _ hnd.2 h1

/-! ## Counting and the interpreter invariant -/

theorem countEv_append (p : Plugin) (f : Bool) (l1 l2 : List (Plugin × Bool)) :
    countEv p f (l1 ++ l2) = countEv p f l1 + countEv p f l2 := by
  induction l1 with
  | nil => simp [countEv]
  | cons ev rest ih => simp [countEv, ih]; omega

/-! Step equations of the interpreter, stated once so proofs can rewrite with
them. -/

theorem run_zero (env : Env) (task : Task) (c : Context) :
    run 0 env task c = Option.none := rfl

theorem run_applyT (n : Nat) (env : Env) (spec : PluginSpec) (force : Bool) (c : Context) :
    run (n+1) env (Task.applyT spec force) c =
      (match resolveSpec env c spec with
       | Except.error e => Option.some (c, Option.some e)
       | Except.ok f =>
         if f ∈ c.applied_plugins ∧ force = false then
           Option.some (c, Option.none)
         else
           match run n env (Task.stmtsT (env.progs f)) (invokeState c f force) with
           | Option.none => Option.none
           | Option.some (c2, Option.none) => Option.some (c2, Option.none)
           | Option.some (c2, Option.some e) =>
             Option.some (c2, Option.some
               (if isPluginError e then e
                else Exc.pluginError (ErrArg.callable f) (Option.some e)))) := rfl

theorem run_stmtsT_nil (n : Nat) (env : Env) (c : Context) :
    run (n+1) env (Task.stmtsT []) c = Option.some (c, Option.none) := rfl

theorem run_stmtsT_cons (n : Nat) (env : Env) (s : Stmt) (rest : List Stmt) (c : Context) :
    run (n+1) env (Task.stmtsT (s :: rest)) c =
      (match run n env (Task.stmtT s) c with
       | Option.none => Option.none
       | Option.some (c1, Option.some e) => Option.some (c1, Option.some e)
       | Option.some (c1, Option.none) => run n env (Task.stmtsT rest) c1) := rfl

theorem run_stmtT_append (n : Nat) (env : Env) (sp : PluginSpec) (c : Context) :
    run (n+1) env (Task.stmtT (Stmt.appendPipeline sp)) c =
      Option.some ({ c with pipeline := c.pipeline ++ [sp] }, Option.none) := rfl

theorem run_stmtT_raise (n : Nat) (env : Env) (e : Exc) (c : Context) :
    run (n+1) env (Task.stmtT (Stmt.raiseStmt e)) c =
      Option.some (c, Option.some e) := rfl

theorem run_stmtT_apply (n : Nat) (env : Env) (sp : PluginSpec) (force : Bool) (c : Context) :
    run (n+1) env (Task.stmtT (Stmt.applyStmt sp force)) c =
      run n env (Task.applyT sp force) c := rfl

theorem run_applyT_callable (n : Nat) (env : Env) (p : Plugin) (force : Bool) (c : Context) :
    run (n+1) env (Task.applyT (PluginSpec.callable p) force) c =
      (if p ∈ c.applied_plugins ∧ force = false then
         Option.some (c, Option.none)
       else
         match run n env (Task.stmtsT (env.progs p)) (invokeState c p force) with
         | Option.none => Option.none
         | Option.some (c2, Option.none) => Option.some (c2, Option.none)
         | Option.some (c2, Option.some e) =>
           Option.some (c2, Option.some
             (if isPluginError e then e
              else Exc.pluginError (ErrArg.callable p) (Option.some e)))) := rfl

theorem build_zero (env : Env) (c : Context) :
    Project.build 0 env c = Option.none := rfl

theorem build_step (n : Nat) (env : Env) (c : Context) :
    Project.build (n+1) env c =
      (match c.pipeline with
       | [] => Option.some (c, Option.none)
       | spec :: rest =>
         match run n env (Task.applyT spec false) { c with pipeline := rest } with
         | Option.none => Option.none
         | Option.some (c1, Option.some e) => Option.some (c1, Option.some e)
         | Option.some (c1, Option.none) => Project.build n env c1) := rfl

theorem build_step_cons (n : Nat) (env : Env) (spec : PluginSpec) (rest : List PluginSpec)
    (c : Context) (hpipe : c.pipeline = spec :: rest) :
    Project.build (n+1) env c =
      (match run n env (Task.applyT spec false) { c with pipeline := rest } with
       | Option.none => Option.none
       | Option.some (c1, Option.some e) => Option.some (c1, Option.some e)
       | Option.some (c1, Option.none) => Project.build n env c1) := by
  rw [build_step, hpipe]

theorem evolves_refl (c : Context) : Evolves c c :=
  ⟨fun _ h => h, ⟨[], (List.append_nil _).symm⟩, fun _ _ => rfl⟩

theorem evolves_trans {a b c : Context} (h1 : Evolves a b) (h2 : Evolves b c) :
    Evolves a c := by
  obtain ⟨s1, ⟨t1, ht1⟩, n1⟩ := h1
  obtain ⟨s2, ⟨t2, ht2⟩, n2⟩ := h2
  exact ⟨fun x hx => s2 x (s1 x hx),
         ⟨t1 ++ t2, by rw [ht2, ht1, List.append_assoc]⟩,
         fun p hp => (n2 p (s1 p hp)).trans (n1 p hp)⟩

theorem mem_addId_of_mem {l : List Plugin} {x p : Plugin} (h : x ∈ l) : x ∈ addId l p := by
  unfold addId
  split
  · exact h
  · exact List.mem_append_left _ h

theorem mem_addId_self (l : List Plugin) (p : Plugin) : p ∈ addId l p := by
  unfold addId
  split
  · assumption
  · exact List.mem_append_right _ (List.mem_singleton.mpr rfl)

theorem evolves_invokeState (c : Context) (f : Plugin) (force : Bool)
    (h : ¬(f ∈ c.applied_plugins ∧ force = false)) :
    Evolves c (invokeState c f force) := by
  refine ⟨fun x hx => mem_addId_of_mem hx, ⟨[(f, force)], rfl⟩, fun p hp => ?_⟩
  show countEv p false (c.trace ++ [(f, force)]) = countEv p false c.trace
  rw [countEv_append]
  have : countEv p false [(f, force)] = 0 := by
    simp only [countEv]
    cases force with
    | false =>
      have hf : f ≠ p := fun hh => h ⟨hh ▸ hp, rfl⟩
      simp [hf]
    | true => simp
  omega

theorem run_evolves :
    ∀ fuel env task c r, run fuel env task c = Option.some r → Evolves c r.1 := by
  intro fuel
  induction fuel with
  | zero => intro env task c r h; simp [run] at h
  | succ n ih =>
    intro env task c r h
    match task with
    | Task.applyT spec force =>
      rw [run_applyT] at h
      split at h
      · cases h
        exact evolves_refl c
      · rename_i f hres
        split at h
        · cases h
          exact evolves_refl c
        · rename_i hskip
          split at h
          · cases h
          · rename_i c2 hrun
            cases h
            exact evolves_trans (evolves_invokeState c f force hskip) (ih env _ _ _ hrun)
          · rename_i c2 e hrun
            cases h
            exact evolves_trans (evolves_invokeState c f force hskip)
              (ih env _ _ (c2, Option.some e) hrun)
    | Task.stmtsT [] =>
      rw [run_stmtsT_nil] at h
      cases h
      exact evolves_refl c
    | Task.stmtsT (s :: rest) =>
      rw [run_stmtsT_cons] at h
      split at h
      · cases h
      · rename_i c1 e hrun
        cases h
        exact ih env _ _ _ hrun
      · rename_i c1 hrun
        exact evolves_trans (ih env _ _ _ hrun) (ih env _ _ _ h)
    | Task.stmtT (Stmt.appendPipeline sp) =>
      rw [run_stmtT_append] at h
      cases h
      exact ⟨fun _ hx => hx, ⟨[], (List.append_nil _).symm⟩, fun _ _ => rfl⟩
    | Task.stmtT (Stmt.raiseStmt e) =>
      rw [run_stmtT_raise] at h
      cases h
      exact evolves_refl c
    | Task.stmtT (Stmt.applyStmt sp force) =>
      rw [run_stmtT_apply] at h
      exact ih env _ _ _ h

theorem countEv_invokeState_self (c : Context) (p : Plugin) (force : Bool) :
    countEv p force (invokeState c p force).trace = countEv p force c.trace + 1 := by
  show countEv p force (c.trace ++ [(p, force)]) = countEv p force c.trace + 1
  rw [countEv_append]
  simp [countEv]

theorem countEv_invokeState_other (c : Context) (p f : Plugin) (force forceEv : Bool)
    (h : f ≠ p ∨ forceEv ≠ force) :
    countEv p force (invokeState c f forceEv).trace = countEv p force c.trace := by
  show countEv p force (c.trace ++ [(f, forceEv)]) = countEv p force c.trace
  rw [countEv_append]
  have : countEv p force [(f, forceEv)] = 0 := by
    simp only [countEv]
    rcases h with h | h
    · simp [h]
    · simp [h]
  omega

/-- A fresh (not yet applied), non-forced application of a callable records
exactly one more non-forced invocation of it and leaves it applied. -/
theorem apply_fresh :
    ∀ fuel env p c r, p ∉ c.applied_plugins →
      run fuel env (Task.applyT (PluginSpec.callable p) false) c = Option.some r →
      countEv p false r.1.trace = countEv p false c.trace + 1 ∧
        p ∈ r.1.applied_plugins := by
  intro fuel env p c r hnot h
  match fuel with
  | 0 => rw [run_zero] at h; cases h
  | n+1 =>
    rw [run_applyT] at h
    split at h
    · rename_i e hres
      rw [show resolveSpec env c (PluginSpec.callable p) = Except.ok p from rfl] at hres
      cases hres
    · rename_i f hres
      rw [show resolveSpec env c (PluginSpec.callable p) = Except.ok p from rfl] at hres
      cases hres
      split at h
      · rename_i hskip
        exact absurd hskip.1 hnot
      · rename_i hskip
        have hbase : countEv p false (invokeState c p false).trace
            = countEv p false c.trace + 1 := countEv_invokeState_self c p false
        have hmem : p ∈ (invokeState c p false).applied_plugins := mem_addId_self _ p
        split at h
        · cases h
        · rename_i c2 hrun
          cases h
          have hev := run_evolves n env _ _ _ hrun
          exact ⟨(hev.2.2 p hmem).trans hbase, hev.1 p hmem⟩
        · rename_i c2 e hrun
          cases h
          have hev := run_evolves n env _ _ (c2, Option.some e) hrun
          exact ⟨(hev.2.2 p hmem).trans hbase, hev.1 p hmem⟩

/-- A forced application always records at least one more (forced)
invocation, and the identity stays recorded. -/
theorem apply_forced :
    ∀ fuel env p c r,
      run fuel env (Task.applyT (PluginSpec.callable p) true) c = Option.some r →
      countEv p true r.1.trace ≥ countEv p true c.trace + 1 ∧
        p ∈ r.1.applied_plugins := by
  intro fuel env p c r h
  match fuel with
  | 0 => rw [run_zero] at h; cases h
  | n+1 =>
    rw [run_applyT] at h
    split at h
    · rename_i e hres
      rw [show resolveSpec env c (PluginSpec.callable p) = Except.ok p from rfl] at hres
      cases hres
    · rename_i f hres
      rw [show resolveSpec env c (PluginSpec.callable p) = Except.ok p from rfl] at hres
      cases hres
      split at h
      · rename_i hskip
        exact absurd hskip.2 (by simp)
      · rename_i hskip
        have hbase : countEv p true (invokeState c p true).trace
            = countEv p true c.trace + 1 := countEv_invokeState_self c p true
        have hmem : p ∈ (invokeState c p true).applied_plugins := mem_addId_self _ p
        have hstep : ∀ c2 : Context,
            Evolves (invokeState c p true) c2 →
            countEv p true c2.trace ≥ countEv p true c.trace + 1 ∧
              p ∈ c2.applied_plugins := by
          intro c2 hev
          obtain ⟨t, ht⟩ := hev.2.1
          constructor
          · rw [ht, countEv_append, hbase]
            omega
          · exact hev.1 p hmem
        split at h
        · cases h
        · rename_i c2 hrun
          cases h
          exact hstep c2 (run_evolves n env _ _ _ hrun)
        · rename_i c2 e hrun
          cases h
          exact hstep c2 (run_evolves n env _ _ (c2, Option.some e) hrun)

/-- Exact simulation of a successful non-forced application of a fresh
callable whose body appends a single reference to the pipeline. -/
theorem apply_append_body :
    ∀ fuel env p q c r,
      env.progs p = [Stmt.appendPipeline (PluginSpec.callable q)] →
      p ∉ c.applied_plugins →
      run fuel env (Task.applyT (PluginSpec.callable p) false) c = Option.some r →
      r = ({ invokeState c p false with pipeline := c.pipeline ++ [PluginSpec.callable q] }, Option.none) := by
  intro fuel env p q c r hprog hnot h
  match fuel with
  | 0 => rw [run_zero] at h; cases h
  | 1 =>
    rw [run_applyT_callable] at h
    rw [if_neg (fun hc => hnot hc.1)] at h
    rw [hprog, run_zero] at h
    cases h
  | 2 =>
    rw [run_applyT_callable] at h
    rw [if_neg (fun hc => hnot hc.1)] at h
    rw [hprog, run_stmtsT_cons, run_zero] at h
    cases h
  | n+3 =>
    have hx : run (n+3) env (Task.applyT (PluginSpec.callable p) false) c
        = Option.some ({ invokeState c p false with pipeline := c.pipeline ++ [PluginSpec.callable q] }, Option.none) := by
      rw [run_applyT_callable]
      rw [if_neg (fun hc => hnot hc.1)]
      rw [hprog]
      rfl
    rw [hx] at h
    cases h
    rfl

/-- Each drain-loop round only evolves the context in the `Evolves` sense. -/
theorem build_evolves :
    ∀ fuel env c r, Project.build fuel env c = Option.some r → Evolves c r.1 := by
  intro fuel
  induction fuel with
  | zero => intro env c r h; rw [build_zero] at h; cases h
  | succ n ih =>
    intro env c r h
    rw [build_step] at h
    split at h
    · cases h
      exact evolves_refl c
    · rename_i spec rest hpipe
      have hpre : Evolves c { c with pipeline := rest } :=
        ⟨fun _ hx => hx, ⟨[], (List.append_nil _).symm⟩, fun _ _ => rfl⟩
      split at h
      · cases h
      · rename_i c1 e hrun
        cases h
        exact evolves_trans hpre (run_evolves n env _ _ (c1, Option.some e) hrun)
      · rename_i c1 hrun
        exact evolves_trans hpre
          (evolves_trans (run_evolves n env _ _ (c1, Option.none) hrun) (ih env _ _ h))

/-- C1: for any plugin callable `p` not yet applied, two successive
non-forced `apply(p)` calls record exactly one non-forced invocation of `p`
in total; a subsequent `apply(p, force=true)` records at least one further
(forced) invocation while adding no non-forced one, and `p` stays a member
of the applied set (re-adding is a set no-op). -/
theorem apply_idempotent_once :
    ∀ n1 n2 n3 env p c c1 e1 c2 e2 c3 e3,
      p ∉ c.applied_plugins →
      Context.apply c env n1 (PluginSpec.callable p) false = Option.some (c1, e1) →
      Context.apply c1 env n2 (PluginSpec.callable p) false = Option.some (c2, e2) →
      Context.apply c2 env n3 (PluginSpec.callable p) true = Option.some (c3, e3) →
      countEv p false c2.trace = countEv p false c.trace + 1 ∧
      countEv p false c3.trace = countEv p false c.trace + 1 ∧
      countEv p true c3.trace ≥ countEv p true c2.trace + 1 ∧
      p ∈ c3.applied_plugins := by
  intro n1 n2 n3 env p c c1 e1 c2 e2 c3 e3 hnot h1 h2 h3
  have f1 := apply_fresh n1 env p c (c1, e1) hnot h1
  have ev2 := run_evolves n2 env _ _ (c2, e2) h2
  have f3 := apply_forced n3 env p c2 (c3, e3) h3
  have ev3 := run_evolves n3 env _ _ (c3, e3) h3
  have hc2count : countEv p false c2.trace = countEv p false c.trace + 1 :=
    (ev2.2.2 p f1.2).trans f1.1
  have hc2mem : p ∈ c2.applied_plugins := ev2.1 p f1.2
  exact ⟨hc2count, (ev3.2.2 p hc2mem).trans hc2count, f3.1, f3.2⟩

/-- C1 witness: concretely, two non-forced applications of callable `0`
followed by a forced one. -/
theorem apply_idempotent_once_witness :
    countEv 0 false cW2.trace = countEv 0 false ctx0.trace + 1 ∧
    countEv 0 false cW3.trace = countEv 0 false ctx0.trace + 1 ∧
    countEv 0 true cW3.trace ≥ countEv 0 true cW2.trace + 1 ∧
    0 ∈ cW3.applied_plugins :=
  apply_idempotent_once 2 2 2 envId 0 ctx0 cW1 Option.none cW2 Option.none cW3
    Option.none (by decide) rfl rfl rfl

/-- C2: a callable identity already present in `applied_plugins` never
receives another non-forced invocation from any `apply` call (the identity
is recorded before invocation, so this covers re-entrant self-application
and cycles: the re-entrant call is skipped); moreover a non-forced `apply`
of an already-applied callable returns immediately with no state change, and
membership persists. -/
theorem applied_never_reinvoked :
    (∀ fuel env spec force c c' e p,
       p ∈ c.applied_plugins →
       Context.apply c env fuel spec force = Option.some (c', e) →
       countEv p false c'.trace = countEv p false c.trace ∧ p ∈ c'.applied_plugins) ∧
    (∀ fuel env p c,
       p ∈ c.applied_plugins →
       Context.apply c env (fuel+1) (PluginSpec.callable p) false =
         Option.some (c, Option.none)) := by
  constructor
  · intro fuel env spec force c c' e p hp h
    have hev := run_evolves fuel env _ _ (c', e) h
    exact ⟨hev.2.2 p hp, hev.1 p hp⟩
  · intro fuel env p c hp
    show run (fuel+1) env (Task.applyT (PluginSpec.callable p) false) c = _
    rw [run_applyT_callable, if_pos ⟨hp, rfl⟩]

/-- C2 witness: after the first application of callable `0`, a second
non-forced application is an immediate no-op and records nothing. -/
theorem applied_never_reinvoked_witness :
    (countEv 0 false cW2.trace = countEv 0 false cW1.trace ∧ 0 ∈ cW2.applied_plugins) ∧
    cW1.apply envId 2 (PluginSpec.callable 0) false = Option.some (cW1, Option.none) :=
  ⟨applied_never_reinvoked.1 2 envId (PluginSpec.callable 0) false cW1 cW2
      Option.none 0 (by decide) rfl,
   applied_never_reinvoked.2 1 envId 0 cW1 (by decide)⟩

/-- A build whose queue front is a fresh callable records exactly one more
non-forced invocation of it by the time the loop stops. -/
theorem build_pops_fresh :
    ∀ fuel env q c c' e,
      c.pipeline = [PluginSpec.callable q] → q ∉ c.applied_plugins →
      Project.build fuel env c = Option.some (c', e) →
      countEv q false c'.trace = countEv q false c.trace + 1 := by
  intro fuel env q c c' e hpipe hq h
  match fuel with
  | 0 => rw [build_zero] at h; cases h
  | n+1 =>
    rw [build_step_cons n env (PluginSpec.callable q) [] c hpipe] at h
    have hq' : q ∉ ({ c with pipeline := ([] : List PluginSpec) } : Context).applied_plugins := hq
    split at h
    · cases h
    · rename_i c1 e1 hrun
      have hf := apply_fresh n env q _ (c1, Option.some e1) hq' hrun
      cases h
      exact hf.1
    · rename_i c1 hrun
      have hf := apply_fresh n env q _ (c1, Option.none) hq' hrun
      have hev := build_evolves n env c1 (c', e) h
      rw [hev.2.2 q hf.2]
      exact hf.1

/-- C4: `Project.build` repeatedly pops the front-most reference and applies
it until the queue is empty (a successfully finished build always ends with
an empty queue), so a reference `q` appended to the queue during another
plugin's invocation is itself applied (invoked) before the build returns,
even though it was absent from the initially declared pipeline. -/
theorem build_self_extending :
    (∀ fuel env c c',
       Project.build fuel env c = Option.some (c', Option.none) → c'.pipeline = []) ∧
    (∀ fuel env p q c c' e,
       env.progs p = [Stmt.appendPipeline (PluginSpec.callable q)] →
       c.pipeline = [PluginSpec.callable p] →
       p ∉ c.applied_plugins → q ∉ c.applied_plugins → q ≠ p →
       Project.build fuel env c = Option.some (c', e) →
       countEv q false c'.trace ≥ countEv q false c.trace + 1) := by
  constructor
  · intro fuel
    induction fuel with
    | zero => intro env c c' h; rw [build_zero] at h; cases h
    | succ n ih =>
      intro env c c' h
      rw [build_step] at h
      split at h
      · rename_i hpipe
        cases h
        exact hpipe
      · split at h
        · cases h
        · rename_i c1 e hrun
          cases h
        · rename_i c1 hrun
          exact ih env c1 c' h
  · intro fuel env p q c c' e hprog hpipe hp hq hqp h
    match fuel with
    | 0 => rw [build_zero] at h; cases h
    | n+1 =>
      rw [build_step_cons n env (PluginSpec.callable p) [] c hpipe] at h
      have hp' : p ∉ ({ c with pipeline := ([] : List PluginSpec) } : Context).applied_plugins := hp
      have hpq : ¬ p = q := fun hh => hqp hh.symm
      have hqA : q ∉ addId c.applied_plugins p := by
        unfold addId
        rw [if_neg hp]
        intro hmem
        rcases List.mem_append.mp hmem with hmem | hmem
        · exact hq hmem
        · exact hqp (List.mem_singleton.mp hmem)
      have htraceA : countEv q false (c.trace ++ [(p, false)])
          = countEv q false c.trace := by
        rw [countEv_append]
        have hz : countEv q false [(p, false)] = 0 := by simp [countEv, hpq]
        omega
      split at h
      · cases h
      · rename_i c1 e1 hrun
        have hr := apply_append_body n env p q _ _ hprog hp' hrun
        simp only [Prod.mk.injEq] at hr
        cases hr.2
      · rename_i c1 hrun
        have hr := apply_append_body n env p q _ _ hprog hp' hrun
        have hc1 := congrArg Prod.fst hr
        simp only at hc1
        rw [hc1] at h
        have hcnt := build_pops_fresh n env q _ c' e rfl hqA h
        have hcnt2 : countEv q false c'.trace
            = countEv q false (c.trace ++ [(p, false)]) + 1 := hcnt
        rw [htraceA] at hcnt2
        omega

/-- C4 witness: a build whose only declared plugin appends callable `1`,
which is then invoked before the build returns, with the queue drained. -/
theorem build_self_extending_witness :
    countEv 1 false cBuild.trace ≥ countEv 1 false ctxPipe.trace + 1 ∧
    cBuild.pipeline = [] :=
  ⟨build_self_extending.2 5 envChain 0 1 ctxPipe cBuild Option.none rfl rfl
     (by decide) (by decide) (by decide) rfl,
   build_self_extending.1 5 envChain ctxPipe cBuild rfl⟩

/-- C5: error flow of `Context.apply`.  A `PluginError` raised during string
resolution propagates unchanged; any other resolution failure is wrapped as
`PluginImportError(plugin)` with the original exception as its cause.  A
`PluginError` raised by the invoked callable propagates unchanged; any other
exception raised by it is wrapped as `PluginError(func)` naming the
offending callable, with the original exception as its cause. -/
theorem apply_error_paths :
    ∀ fuel env (c : Context) force,
      (∀ s e, env.resolve s c.beet_default = Except.error e → isPluginError e = true →
         Context.apply c env (fuel+1) (PluginSpec.byName s) force =
           Option.some (c, Option.some e)) ∧
      (∀ s e, env.resolve s c.beet_default = Except.error e → isPluginError e = false →
         Context.apply c env (fuel+1) (PluginSpec.byName s) force =
           Option.some (c, Option.some
             (Exc.pluginImportError (ErrArg.spec (PluginSpec.byName s)) (Option.some e)))) ∧
      (∀ f c2 e, ¬(f ∈ c.applied_plugins ∧ force = false) →
         run fuel env (Task.stmtsT (env.progs f)) (invokeState c f force) =
           Option.some (c2, Option.some e) →
         isPluginError e = true →
         Context.apply c env (fuel+1) (PluginSpec.callable f) force =
           Option.some (c2, Option.some e)) ∧
      (∀ f c2 e, ¬(f ∈ c.applied_plugins ∧ force = false) →
         run fuel env (Task.stmtsT (env.progs f)) (invokeState c f force) =
           Option.some (c2, Option.some e) →
         isPluginError e = false →
         Context.apply c env (fuel+1) (PluginSpec.callable f) force =
           Option.some (c2, Option.some
             (Exc.pluginError (ErrArg.callable f) (Option.some e)))) := by
  intro fuel env c force
  refine ⟨fun s e hres hpe => ?_, fun s e hres hpe => ?_,
          fun f c2 e hskip hrun hpe => ?_, fun f c2 e hskip hrun hpe => ?_⟩
  · show run (fuel+1) env (Task.applyT (PluginSpec.byName s) force) c = _
    rw [run_applyT]
    have hr : resolveSpec env c (PluginSpec.byName s) = Except.error e := by
      simp [resolveSpec, hres, hpe]
    rw [hr]
  · show run (fuel+1) env (Task.applyT (PluginSpec.byName s) force) c = _
    rw [run_applyT]
    have hr : resolveSpec env c (PluginSpec.byName s) =
        Except.error (Exc.pluginImportError (ErrArg.spec (PluginSpec.byName s)) (Option.some e)) := by
      simp [resolveSpec, hres, hpe]
    rw [hr]
  · show run (fuel+1) env (Task.applyT (PluginSpec.callable f) force) c = _
    rw [run_applyT_callable, if_neg hskip, hrun]
    simp [hpe]
  · show run (fuel+1) env (Task.applyT (PluginSpec.callable f) force) c = _
    rw [run_applyT_callable, if_neg hskip, hrun]
    simp [hpe]

/-- C5 witness: each error path exercised concretely over `envErr`. -/
theorem apply_error_paths_witness :
    Context.apply ctx0 envErr 3 (PluginSpec.byName ("perr")) false =
      Option.some (ctx0, Option.some (Exc.pluginError (ErrArg.custom 1) Option.none)) ∧
    Context.apply ctx0 envErr 3 (PluginSpec.byName ("boom")) false =
      Option.some (ctx0, Option.some
        (Exc.pluginImportError (ErrArg.spec (PluginSpec.byName ("boom")))
          (Option.some (Exc.other 7 Option.none)))) ∧
    Context.apply ctx0 envErr 3 (PluginSpec.callable 2) false =
      Option.some (cInv2, Option.some (Exc.pluginError (ErrArg.custom 2) Option.none)) ∧
    Context.apply ctx0 envErr 3 (PluginSpec.callable 1) false =
      Option.some (cInv1, Option.some
        (Exc.pluginError (ErrArg.callable 1) (Option.some (Exc.other 3 Option.none)))) :=
  ⟨(apply_error_paths 2 envErr ctx0 false).1 ("perr")
     (Exc.pluginError (ErrArg.custom 1) Option.none) rfl rfl,
   (apply_error_paths 2 envErr ctx0 false).2.1 ("boom")
     (Exc.other 7 Option.none) rfl rfl,
   (apply_error_paths 2 envErr ctx0 false).2.2.1 2 cInv2
     (Exc.pluginError (ErrArg.custom 2) Option.none)
     (by intro hc; exact absurd hc.1 (by decide)) rfl rfl,
   (apply_error_paths 2 envErr ctx0 false).2.2.2 1 cInv1
     (Exc.other 3 Option.none)
     (by intro hc; exact absurd hc.1 (by decide)) rfl rfl⟩

/-! ## Override lemmas -/

theorem overrideBackup_keys_sublist (c : Context) (kwargs : List (String × Val)) :
    List.Sublist ((overrideBackup c kwargs).map Prod.fst) (kwargs.map Prod.fst) := by
  induction kwargs with
  | nil => simp [overrideBackup]
  | cons kv rest ih =>
    simp only [overrideBackup, List.filterMap_cons] at ih ⊢
    cases dictGet c.meta kv.1 with
    | none =>
      simp only [List.map_cons]
      exact ih.cons _
    | some v =>
      simp only [List.map_cons]
      exact ih.cons₂ _

theorem mem_overrideBackup (c : Context) (kwargs : List (String × Val)) (k : String) (v : Val)
    (hmeta : dictGet c.meta k = Option.some v) (hk : k ∈ kwargs.map Prod.fst) :
    (k, v) ∈ overrideBackup c kwargs := by
  obtain ⟨kv, hkv, hfst⟩ := List.mem_map.mp hk
  refine List.mem_filterMap.mpr ⟨kv, hkv, ?_⟩
  rw [hfst, hmeta]

theorem notMem_overrideBackup_keys (c : Context) (kwargs : List (String × Val)) (k : String)
    (hmeta : dictGet c.meta k = Option.none) :
    k ∉ (overrideBackup c kwargs).map Prod.fst := by
  intro hk
  obtain ⟨b, hb, hfst⟩ := List.mem_map.mp hk
  obtain ⟨kv, _, hf⟩ := List.mem_filterMap.mp hb
  cases hget : dictGet c.meta kv.1 with
  | none => rw [hget] at hf; cases hf
  | some v0 =>
    rw [hget] at hf
    cases hf
    rw [hfst] at hget
    rw [hget] at hmeta
    cases hmeta

/-- C3: `Context.override(**kwargs)` updates `meta` with every supplied
option on entry (after backing up the previously-existing keys); on every
exit path, normal or error (the body's outcome propagates unchanged), the
backup is applied, restoring previously-existing keys to their prior values,
while keys that did not previously exist are left at whatever value the
scope set them to (so untouched new keys keep the override value). -/
theorem override_scoped :
    ∀ (kwargs : List (String × Val)) (body : Context → Context × Option Exc) (c : Context),
      (kwargs.map Prod.fst).Nodup →
      (∀ k v, (k, v) ∈ kwargs → dictGet (overrideEnter c kwargs).meta k = Option.some v) ∧
      (∀ k, k ∉ kwargs.map Prod.fst →
         dictGet (overrideEnter c kwargs).meta k = dictGet c.meta k) ∧
      ((Context.override c kwargs body).2 = (body (overrideEnter c kwargs)).2) ∧
      (∀ k v, dictGet c.meta k = Option.some v → k ∈ kwargs.map Prod.fst →
         dictGet (Context.override c kwargs body).1.meta k = Option.some v) ∧
      (∀ k, dictGet c.meta k = Option.none →
         dictGet (Context.override c kwargs body).1.meta k
           = dictGet (body (overrideEnter c kwargs)).1.meta k) := by
  intro kwargs body c hnd
  refine ⟨fun k v hkv => ?_, fun k hk => ?_, rfl, fun k v hv hk => ?_, fun k hk => ?_⟩
  · exact dictGet_dictUpdate_mem kwargs c.meta k v hnd hkv
  · exact dictGet_dictUpdate_notMem kwargs c.meta k hk
  · show dictGet (dictUpdate (body (overrideEnter c kwargs)).1.meta (overrideBackup c kwargs)) k
        = Option.some v
    exact dictGet_dictUpdate_mem _ _ k v
      (List.Nodup.sublist (overrideBackup_keys_sublist c kwargs) hnd)
      (mem_overrideBackup c kwargs k v hv hk)
  · show dictGet (dictUpdate (body (overrideEnter c kwargs)).1.meta (overrideBackup c kwargs)) k
        = _
    exact dictGet_dictUpdate_notMem _ _ k (notMem_overrideBackup_keys c kwargs k hk)

/-- C3 witness: with `meta={"a":1}` and `override(a=2, b=3)`, inside the
scope `a=2` and `b=3`; after a normal exit `a` is restored to `1` and `b`
keeps `3`; after an error exit the error propagates and `a` is still
restored. -/
theorem override_scoped_witness :
    dictGet (overrideEnter ctxM kwW).meta ("a") = Option.some (Val.int 2) ∧
    dictGet (overrideEnter ctxM kwW).meta ("b") = Option.some (Val.int 3) ∧
    dictGet (ctxM.override kwW bodyId).1.meta ("a") = Option.some (Val.int 1) ∧
    dictGet (ctxM.override kwW bodyId).1.meta ("b") = Option.some (Val.int 3) ∧
    (ctxM.override kwW bodyRaise).2 = Option.some (Exc.other 9 Option.none) ∧
    dictGet (ctxM.override kwW bodyRaise).1.meta ("a") = Option.some (Val.int 1) :=
  ⟨(override_scoped kwW bodyId ctxM (by decide)).1 ("a") (Val.int 2) (by decide),
   (override_scoped kwW bodyId ctxM (by decide)).1 ("b") (Val.int 3) (by decide),
   (override_scoped kwW bodyId ctxM (by decide)).2.2.2.1 ("a") (Val.int 1) rfl (by decide),
   ((override_scoped kwW bodyId ctxM (by decide)).2.2.2.2 ("b") rfl).trans
     ((override_scoped kwW bodyId ctxM (by decide)).1 ("b") (Val.int 3) (by decide)),
   (override_scoped kwW bodyRaise ctxM (by decide)).2.2.1,
   (override_scoped kwW bodyRaise ctxM (by decide)).2.2.2.1 ("a") (Val.int 1) rfl (by decide)⟩

/-- C8: `Project.from_config` inserts the `beet.prelude` bootstrap reference
at the front of the declared pipeline when the config has no `prelude` key
or `prelude: true`, and omits it when `prelude: false`; the declared order
is preserved after it. -/
theorem from_config_prelude :
    ∀ cfg : ProjectConfig,
      ((cfg.prelude = Option.none ∨ cfg.prelude = Option.some true) →
         (Project.from_config cfg).pipeline = ("beet.prelude") :: cfg.pipeline) ∧
      (cfg.prelude = Option.some false →
         (Project.from_config cfg).pipeline = cfg.pipeline) := by
  intro cfg
  constructor
  · intro h
    rcases h with h | h <;>
      simp [Project.from_config, h, Option.getD]
  · intro h
    simp [Project.from_config, h, Option.getD]

/-- C8 witness: the three concrete prelude configurations. -/
theorem from_config_prelude_witness :
    (Project.from_config cfgNone).pipeline = ("beet.prelude") :: cfgNone.pipeline ∧
    (Project.from_config cfgTrue).pipeline = ("beet.prelude") :: cfgTrue.pipeline ∧
    (Project.from_config cfgFalse).pipeline = cfgFalse.pipeline :=
  ⟨(from_config_prelude cfgNone).1 (Or.inl rfl),
   (from_config_prelude cfgTrue).1 (Or.inr rfl),
   (from_config_prelude cfgFalse).2 rfl⟩

/-! ## Session teardown lemmas -/

theorem removeFirst_append_self (l : List String) (d : String) (h : d ∉ l) :
    removeFirst (l ++ [d]) d = l := by
  induction l with
  | nil => simp [removeFirst]
  | cons a rest ih =>
    simp only [List.mem_cons] at h
    push_neg at h
    simp only [List.cons_append, removeFirst]
    rw [if_neg (fun hh : a = d => h.1 hh.symm)]
    show a :: removeFirst (rest ++ [d]) d = a :: rest
    rw [ih h.2]

/-- C9: on every exit of `Project.context` (the body's outcome, normal or
error, propagates unchanged), every loaded module whose backing file path
starts with the project directory is evicted from the module registry,
modules whose file does not match (or that have no file) stay registered,
and the project directory entry appended on entry is removed from the
module search path. -/
theorem context_teardown :
    ∀ (dir : String) (body : SysState → SysState × Option Exc) (s : SysState),
      (∀ nm f, (nm, Option.some f) ∈ (body (enterState s dir)).1.modules →
         strBegins f dir = true →
         (nm, Option.some f) ∉ (Project.context dir body s).1.modules) ∧
      (∀ m, m ∈ (body (enterState s dir)).1.modules → moduleUnder dir m = false →
         m ∈ (Project.context dir body s).1.modules) ∧
      ((Project.context dir body s).2 = (body (enterState s dir)).2) ∧
      (dir ∉ s.path → (body (enterState s dir)).1.path = (enterState s dir).path →
         (Project.context dir body s).1.path = s.path) := by
  intro dir body s
  refine ⟨fun nm f hmem hpre hcon => ?_, fun m hmem hnot => ?_, rfl, fun hnp hbody => ?_⟩
  · have hf := (List.mem_filter.mp hcon).2
    rw [show moduleUnder dir (nm, Option.some f) = strBegins f dir from rfl, hpre] at hf
    cases hf
  · exact List.mem_filter.mpr ⟨hmem, by rw [hnot]; rfl⟩
  · show removeFirst (body (enterState s dir)).1.path dir = s.path
    rw [hbody]
    exact removeFirst_append_self s.path dir hnp

/-- C9 witness: over a state with modules under `/proj`, under `/other` and
without a backing file, a session evicts only the `/proj` module, restores
the search path, and propagates an error from the body. -/
theorem context_teardown_witness :
    (("m1"), Option.some ("/proj/a.py")) ∉ (Project.context ("/proj") bodyIdS sysW).1.modules ∧
    (("m2"), Option.some ("/other/b.py")) ∈ (Project.context ("/proj") bodyIdS sysW).1.modules ∧
    (("m3"), (Option.none : Option String)) ∈ (Project.context ("/proj") bodyIdS sysW).1.modules ∧
    (Project.context ("/proj") bodyErrS sysW).2 = Option.some (Exc.other 5 Option.none) ∧
    (Project.context ("/proj") bodyIdS sysW).1.path = sysW.path :=
  ⟨(context_teardown ("/proj") bodyIdS sysW).1 ("m1") ("/proj/a.py") (by decide) rfl,
   (context_teardown ("/proj") bodyIdS sysW).2.1 (("m2"), Option.some ("/other/b.py"))
     (by decide) rfl,
   (context_teardown ("/proj") bodyIdS sysW).2.1 (("m3"), Option.none) (by decide) rfl,
   (context_teardown ("/proj") bodyErrS sysW).2.2.1,
   (context_teardown ("/proj") bodyIdS sysW).2.2.2 (by decide) rfl⟩

/-! ## Positional numerals: round trip, digit bounds and injectivity -/

theorem valBase_append_single (b : Nat) (l : List Nat) (d : Nat) :
    valBase b (l ++ [d]) = valBase b l * b + d := by
  unfold valBase
  rw [List.foldl_append]
  rfl

theorem natToBaseAux_val (b : Nat) (hb : 2 ≤ b) :
    ∀ fuel n, n ≤ fuel → valBase b (natToBaseAux b fuel n) = n := by
  intro fuel
  induction fuel with
  | zero =>
    intro n hn
    have hn0 : n = 0 := Nat.le_zero.mp hn
    subst hn0
    simp [natToBaseAux, valBase]
  | succ f ih =>
    intro n hn
    by_cases hlt : n < b
    · simp [natToBaseAux, hlt, valBase]
    · have hbn : b ≤ n := Nat.le_of_not_lt hlt
      have hpos : 0 < n := Nat.lt_of_lt_of_le (by omega) hbn
      have hdiv : n / b < n := Nat.div_lt_self hpos (by omega)
      have hdivle : n / b ≤ f := by omega
      simp only [natToBaseAux, if_neg hlt]
      rw [valBase_append_single, ih (n / b) hdivle, Nat.mul_comm]
      exact Nat.div_add_mod n b

theorem natToBase_val (b n : Nat) (hb : 2 ≤ b) : valBase b (natToBase b n) = n :=
  natToBaseAux_val b hb n n (Nat.le_refl n)

theorem natToBase_inj (b n m : Nat) (hb : 2 ≤ b) (h : natToBase b n = natToBase b m) :
    n = m := by
  have hn := natToBase_val b n hb
  have hm := natToBase_val b m hb
  rw [h, hm] at hn
  exact hn.symm

theorem natToBaseAux_lt (b : Nat) (hb : 2 ≤ b) :
    ∀ fuel n, n ≤ fuel → ∀ d, d ∈ natToBaseAux b fuel n → d < b := by
  intro fuel
  induction fuel with
  | zero =>
    intro n hn d hd
    have hn0 : n = 0 := Nat.le_zero.mp hn
    subst hn0
    simp [natToBaseAux] at hd
    omega
  | succ f ih =>
    intro n hn d hd
    by_cases hlt : n < b
    · simp [natToBaseAux, hlt] at hd
      omega
    · have hbn : b ≤ n := Nat.le_of_not_lt hlt
      have hpos : 0 < n := Nat.lt_of_lt_of_le (by omega) hbn
      have hdiv : n / b < n := Nat.div_lt_self hpos (by omega)
      simp only [natToBaseAux, if_neg hlt, List.mem_append] at hd
      rcases hd with hd | hd
      · exact ih (n / b) (by omega) d hd
      · have : d = n % b := List.mem_singleton.mp hd
        subst this
        exact Nat.mod_lt n (by omega)

theorem natToBaseAux_head_ne_zero (b : Nat) (hb : 2 ≤ b) :
    ∀ fuel n, 1 ≤ n → n ≤ fuel →
      ∃ d t, natToBaseAux b fuel n = d :: t ∧ d ≠ 0 := by
  intro fuel
  induction fuel with
  | zero => intro n h1 h2; omega
  | succ f ih =>
    intro n h1 h2
    by_cases hlt : n < b
    · exact ⟨n, [], by simp [natToBaseAux, hlt], by omega⟩
    · have hbn : b ≤ n := Nat.le_of_not_lt hlt
      have hpos : 0 < n := by omega
      have hdiv : n / b < n := Nat.div_lt_self hpos (by omega)
      have hdiv1 : 1 ≤ n / b := Nat.one_le_div_iff (by omega) |>.mpr hbn
      obtain ⟨d, t, heq, hd⟩ := ih (n / b) hdiv1 (by omega)
      refine ⟨d, t ++ [n % b], ?_, hd⟩
      simp only [natToBaseAux, if_neg hlt, heq]
      rfl

/-! ## Digit characters: injectivity and distinguishability from fill -/

theorem digitChar_inj_lt :
    ∀ a c : Nat, a < 16 → c < 16 → Nat.digitChar a = Nat.digitChar c → a = c := by
  have h : ∀ a c : Fin 16, Nat.digitChar a.val = Nat.digitChar c.val → a = c := by decide
  intro a c ha hc heq
  have := h ⟨a, ha⟩ ⟨c, hc⟩ heq
  exact congrArg Fin.val this

theorem digitCharU_inj_lt :
    ∀ a c : Nat, a < 16 → c < 16 → digitCharU a = digitCharU c → a = c := by
  have h : ∀ a c : Fin 16, digitCharU a.val = digitCharU c.val → a = c := by decide
  intro a c ha hc heq
  have := h ⟨a, ha⟩ ⟨c, hc⟩ heq
  exact congrArg Fin.val this

theorem digitChar_ne_fill (fill : Char) (hfill : fill = '0' ∨ fill = ' ') :
    ∀ a : Nat, a < 16 → a ≠ 0 → Nat.digitChar a ≠ fill := by
  have h0 : ∀ a : Fin 16, a.val ≠ 0 → Nat.digitChar a.val ≠ '0' := by decide
  have hs : ∀ a : Fin 16, Nat.digitChar a.val ≠ ' ' := by decide
  intro a ha hne
  rcases hfill with rfl | rfl
  · exact h0 ⟨a, ha⟩ hne
  · exact hs ⟨a, ha⟩

theorem digitCharU_ne_fill (fill : Char) (hfill : fill = '0' ∨ fill = ' ') :
    ∀ a : Nat, a < 16 → a ≠ 0 → digitCharU a ≠ fill := by
  have h0 : ∀ a : Fin 16, a.val ≠ 0 → digitCharU a.val ≠ '0' := by decide
  have hs : ∀ a : Fin 16, digitCharU a.val ≠ ' ' := by decide
  intro a ha hne
  rcases hfill with rfl | rfl
  · exact h0 ⟨a, ha⟩ hne
  · exact hs ⟨a, ha⟩

theorem map_digits_inj (φ : Nat → Char)
    (hinj : ∀ a c : Nat, a < 16 → c < 16 → φ a = φ c → a = c) :
    ∀ l1 l2 : List Nat, (∀ d, d ∈ l1 → d < 16) → (∀ d, d ∈ l2 → d < 16) →
      l1.map φ = l2.map φ → l1 = l2 := by
  intro l1
  induction l1 with
  | nil =>
    intro l2 _ _ h
    cases l2 with
    | nil => rfl
    | cons b t => cases h
  | cons a t1 ih =>
    intro l2 h1 h2 h
    cases l2 with
    | nil => cases h
    | cons b t2 =>
      simp only [List.map_cons, List.cons.injEq] at h
      have ha : a = b := hinj a b (h1 a (List.mem_cons_self a t1))
        (h2 b (List.mem_cons_self b t2)) h.1
      have ht : t1 = t2 := ih t2 (fun d hd => h1 d (List.mem_cons_of_mem a hd))
        (fun d hd => h2 d (List.mem_cons_of_mem b hd)) h.2
      rw [ha, ht]

theorem dropWhile_replicate_append (p : Char → Bool) (c : Char) (hc : p c = true) :
    ∀ k (l : List Char), List.dropWhile p (List.replicate k c ++ l) = List.dropWhile p l := by
  intro k
  induction k with
  | zero => intro l; rfl
  | succ j ih =>
    intro l
    simp only [List.replicate_succ, List.cons_append, List.dropWhile_cons, hc]
    exact ih l

/-- Stripping an arbitrary amount of fill from a fill-padded numeral recovers
its digit characters, whose head cannot be the fill character. -/
theorem strip_fill (fill : Char) (k : Nat) (hd : Char) (t : List Char)
    (hhd : hd ≠ fill) :
    List.dropWhile (fun ch => ch == fill) (List.replicate k fill ++ (hd :: t)) = hd :: t := by
  rw [dropWhile_replicate_append _ _ (by simp)]
  simp only [List.dropWhile_cons]
  rw [if_neg (by simp [hhd])]

/-- Rendering an `id` with a fixed spec is injective on positive values. -/
theorem renderId_inj (sp : IdSpec) (n m : Nat) (hn : 1 ≤ n) (hm : 1 ≤ m)
    (h : renderId sp n = renderId sp m) : n = m := by
  have key : ∀ (b : Nat) (φ : Nat → Char), 2 ≤ b → b ≤ 16 →
      (∀ a c : Nat, a < 16 → c < 16 → φ a = φ c → a = c) →
      (∀ a : Nat, a < 16 → a ≠ 0 → φ a ≠ (if sp.zeroPad then '0' else ' ')) →
      ∀ kn km, List.replicate kn (if sp.zeroPad then '0' else ' ') ++ (natToBase b n).map φ
        = List.replicate km (if sp.zeroPad then '0' else ' ') ++ (natToBase b m).map φ →
      n = m := by
    intro b φ hb hb16 hinj hfill kn km heq
    obtain ⟨dn, tn, hdn, hdn0⟩ := natToBaseAux_head_ne_zero b hb n n hn (Nat.le_refl n)
    obtain ⟨dm, tm, hdm, hdm0⟩ := natToBaseAux_head_ne_zero b hb m m hm (Nat.le_refl m)
    have hbn := natToBaseAux_lt b hb n n (Nat.le_refl n)
    have hbm := natToBaseAux_lt b hb m m (Nat.le_refl m)
    have hdnlt : dn < 16 := by
      have := hbn dn (by rw [hdn]; exact List.mem_cons_self _ _)
      omega
    have hdmlt : dm < 16 := by
      have := hbm dm (by rw [hdm]; exact List.mem_cons_self _ _)
      omega
    have hstrip := congrArg (List.dropWhile (fun ch => ch == (if sp.zeroPad then '0' else ' '))) heq
    rw [show natToBase b n = dn :: tn from hdn, show natToBase b m = dm :: tm from hdm] at hstrip
    simp only [List.map_cons] at hstrip
    rw [strip_fill _ _ _ _ (hfill dn hdnlt hdn0), strip_fill _ _ _ _ (hfill dm hdmlt hdm0)] at hstrip
    have hmap : (natToBase b n).map φ = (natToBase b m).map φ := by
      rw [show natToBase b n = dn :: tn from hdn, show natToBase b m = dm :: tm from hdm]
      simpa using hstrip
    have hdig := map_digits_inj φ hinj (natToBase b n) (natToBase b m)
      (fun d hdm2 => by have := hbn d hdm2; omega)
      (fun d hdm2 => by have := hbm d hdm2; omega) hmap
    exact natToBase_inj b n m hb hdig
  obtain ⟨zp, w, bk⟩ := sp
  match bk with
  | 0 =>
    exact key 10 Nat.digitChar (by omega) (by omega) digitChar_inj_lt
      (digitChar_ne_fill _ (by cases zp <;> simp)) _ _ h
  | 1 =>
    exact key 16 Nat.digitChar (by omega) (by omega) digitChar_inj_lt
      (digitChar_ne_fill _ (by cases zp <;> simp)) _ _ h
  | bk2+2 =>
    exact key 16 digitCharU (by omega) (by omega) digitCharU_inj_lt
      (digitCharU_ne_fill _ (by cases zp <;> simp)) _ _ h

/-! ## The format scanner on literal text and on a single `id` field -/

theorem fmtGo_cons_none (idVal fuel : Nat) (ch : Char) (rest : List Char) :
    fmtGo idVal (fuel+1) Option.none (ch :: rest) =
      (if ch = '{' then
        match rest with
        | '{' :: rest2 =>
          match fmtGo idVal fuel Option.none rest2 with
          | Except.ok s => Except.ok ('{' :: s)
          | Except.error e => Except.error e
        | _ => fmtGo idVal fuel (Option.some []) rest
      else if ch = '}' then
        match rest with
        | '}' :: rest2 =>
          match fmtGo idVal fuel Option.none rest2 with
          | Except.ok s => Except.ok ('}' :: s)
          | Except.error e => Except.error e
        | _ => Except.error ()
      else
        match fmtGo idVal fuel Option.none rest with
        | Except.ok s => Except.ok (ch :: s)
        | Except.error e => Except.error e) := rfl

theorem fmtGo_cons_some (idVal fuel : Nat) (acc : List Char) (ch : Char) (rest : List Char) :
    fmtGo idVal (fuel+1) (Option.some acc) (ch :: rest) =
      (if ch = '}' then
        match renderField acc.reverse idVal with
        | Option.none => Except.error ()
        | Option.some out =>
          match fmtGo idVal fuel Option.none rest with
          | Except.ok s => Except.ok (out ++ s)
          | Except.error e => Except.error e
      else fmtGo idVal fuel (Option.some (ch :: acc)) rest) := rfl

theorem braceFreeL_cons (c : Char) (l : List Char) (h : braceFreeL (c :: l) = true) :
    ¬ c = '{' ∧ ¬ c = '}' ∧ braceFreeL l = true := by
  simp only [braceFreeL, List.all_cons, Bool.and_eq_true, Bool.not_eq_true',
    decide_eq_false_iff_not] at h
  exact ⟨h.1.1, h.1.2, h.2⟩

theorem fmtGo_literal_self :
    ∀ (S : List Char) (idVal : Nat), braceFreeL S = true →
      fmtGo idVal S.length Option.none S = Except.ok S := by
  intro S
  induction S with
  | nil => intro idVal _; rfl
  | cons c S' ih =>
    intro idVal h
    obtain ⟨h1, h2, h3⟩ := braceFreeL_cons c S' h
    show fmtGo idVal (S'.length + 1) Option.none (c :: S') = Except.ok (c :: S')
    rw [fmtGo_cons_none, if_neg h1, if_neg h2, ih idVal h3]

theorem fmtGo_literal_ok :
    ∀ (l r s : List Char) (fuel idVal : Nat),
      braceFreeL l = true → fmtGo idVal fuel Option.none r = Except.ok s →
      fmtGo idVal (fuel + l.length) Option.none (l ++ r) = Except.ok (l ++ s) := by
  intro l
  induction l with
  | nil => intro r s fuel idVal _ h; exact h
  | cons c l' ih =>
    intro r s fuel idVal hb h
    obtain ⟨h1, h2, h3⟩ := braceFreeL_cons c l' hb
    show fmtGo idVal ((fuel + l'.length) + 1) Option.none (c :: (l' ++ r))
        = Except.ok (c :: (l' ++ s))
    rw [fmtGo_cons_none, if_neg h1, if_neg h2, ih r s fuel idVal h3 h]

theorem fmtGo_field_ok :
    ∀ (field acc rest s out : List Char) (fuel idVal : Nat),
      braceFreeL field = true →
      renderField (acc.reverse ++ field) idVal = Option.some out →
      fmtGo idVal fuel Option.none rest = Except.ok s →
      fmtGo idVal ((fuel + 1) + field.length) (Option.some acc) (field ++ '}' :: rest)
        = Except.ok (out ++ s) := by
  intro field
  induction field with
  | nil =>
    intro acc rest s out fuel idVal _ hrender hfmt
    show fmtGo idVal (fuel + 1) (Option.some acc) ('}' :: rest) = Except.ok (out ++ s)
    rw [fmtGo_cons_some, if_pos rfl]
    rw [List.append_nil] at hrender
    rw [hrender, hfmt]
  | cons ch field' ih =>
    intro acc rest s out fuel idVal hb hrender hfmt
    obtain ⟨h1, h2, h3⟩ := braceFreeL_cons ch field' hb
    show fmtGo idVal (((fuel + 1) + field'.length) + 1) (Option.some acc)
        (ch :: (field' ++ '}' :: rest)) = Except.ok (out ++ s)
    rw [fmtGo_cons_some, if_neg h2]
    apply ih (ch :: acc) rest s out fuel idVal h3 _ hfmt
    rw [List.reverse_cons, List.append_assoc]
    exact hrender

theorem renderField_id_plain (idVal : Nat) :
    renderField ['i', 'd'] idVal = Option.some (renderId ⟨false, 0, 0⟩ idVal) := rfl

theorem renderField_id_spec (idVal : Nat) (spec : List Char) :
    renderField ('i' :: 'd' :: ':' :: spec) idVal
      = (parseIdSpec spec).map (fun sp => renderId sp idVal) := rfl

theorem fmtGo_idTemplate :
    ∀ (P spec S : List Char) (sp : IdSpec) (idVal : Nat),
      braceFreeL P = true → braceFreeL spec = true → braceFreeL S = true →
      parseIdSpec spec = Option.some sp →
      fmtGo idVal
        ((((S.length + 1) + ('i' :: 'd' :: (if spec.isEmpty then [] else ':' :: spec)).length) + 1) + P.length)
        Option.none (idTemplate P spec S)
        = Except.ok (P ++ (renderId sp idVal ++ S)) := by
  intro P spec S sp idVal hP hspec hS hparse
  unfold idTemplate
  apply fmtGo_literal_ok P _ _ _ idVal hP
  show fmtGo idVal (((S.length + 1) + ('i' :: 'd' :: (if spec.isEmpty then [] else ':' :: spec)).length) + 1)
      Option.none ('{' :: (('i' :: 'd' :: (if spec.isEmpty then [] else ':' :: spec)) ++ '}' :: S))
      = Except.ok (renderId sp idVal ++ S)
  rw [fmtGo_cons_none, if_pos rfl]
  have hfield : braceFreeL ('i' :: 'd' :: (if spec.isEmpty then [] else ':' :: spec)) = true := by
    cases spec with
    | nil => decide
    | cons c rest =>
      show braceFreeL ('i' :: 'd' :: ':' :: c :: rest) = true
      simp only [braceFreeL, List.all_cons, Bool.and_eq_true] at hspec ⊢
      exact ⟨⟨by decide, by decide⟩, ⟨by decide, by decide⟩, ⟨by decide, by decide⟩, hspec⟩
  have hrender : renderField (([] : List Char).reverse ++
      ('i' :: 'd' :: (if spec.isEmpty then [] else ':' :: spec))) idVal
      = Option.some (renderId sp idVal) := by
    cases spec with
    | nil =>
      have hsp' : sp = ⟨false, 0, 0⟩ := by
        have h2 := hparse
        rw [show parseIdSpec [] = Option.some ⟨false, 0, 0⟩ from rfl] at h2
        exact (Option.some.injEq _ _ ▸ h2).symm
      show renderField ['i', 'd'] idVal = Option.some (renderId sp idVal)
      rw [hsp']
      exact renderField_id_plain idVal
    | cons c rest =>
      show renderField ('i' :: 'd' :: ':' :: c :: rest) idVal = Option.some (renderId sp idVal)
      rw [renderField_id_spec, hparse]
      rfl
  show fmtGo idVal (((S.length + 1) + ('i' :: 'd' :: (if spec.isEmpty then [] else ':' :: spec)).length))
      (Option.some []) (('i' :: 'd' :: (if spec.isEmpty then [] else ':' :: spec)) ++ '}' :: S)
      = Except.ok (renderId sp idVal ++ S)
  exact fmtGo_field_ok _ [] S S (renderId sp idVal) S.length idVal hfield hrender
    (fmtGo_literal_self S idVal hS)

theorem pyFormat_idTemplate (P spec S : List Char) (sp : IdSpec) (idVal : Nat)
    (hP : braceFreeL P = true) (hspec : braceFreeL spec = true) (hS : braceFreeL S = true)
    (hparse : parseIdSpec spec = Option.some sp) :
    pyFormat (String.mk (idTemplate P spec S)) idVal
      = Except.ok (String.mk (P ++ (renderId sp idVal ++ S))) := by
  have hlen : (idTemplate P spec S).length
      = (((S.length + 1) + ('i' :: 'd' :: (if spec.isEmpty then [] else ':' :: spec)).length) + 1) + P.length := by
    simp [idTemplate, List.length_append]
    omega
  show (match fmtGo idVal (String.mk (idTemplate P spec S)).data.length Option.none
          (String.mk (idTemplate P spec S)).data with
        | Except.ok s => Except.ok (String.mk s)
        | Except.error e => Except.error e) = _
  rw [show (String.mk (idTemplate P spec S)).data = idTemplate P spec S from rfl, hlen,
      fmtGo_idTemplate P spec S sp idVal hP hspec hS hparse]

/-- C6 counterexample: the claim's guarantee "successive calls never return
the same resolved name" fails as stated: for the template `abc`, which has
no `id` placeholder, two successive `generate_name` calls both return
`abc`. -/
theorem generate_name_same_name_cex :
    ((ctx0.generate_name ("abc")).1.generate_name ("abc")).2 = (ctx0.generate_name ("abc")).2 ∧
    (ctx0.generate_name ("abc")).2 = Except.ok ("abc") := ⟨rfl, rfl⟩

/-- C6 (amended): `Context.generate_name` increments `counters[template]`
(so the first result uses counter value `1`), leaves every other template's
counter untouched (intervening calls with a different template do not
affect the sequence), and for a fixed template consisting of literal
brace-free text around a single `{id}` placeholder (plain or
`[0][width][d|x|X]`-spec form) two calls made at different counter values
never return the same resolved name. -/
theorem generate_name_monotonic :
    ∀ (c : Context) (t : String),
      (countersGet (c.generate_name t).1.counters t = countersGet c.counters t + 1) ∧
      (∀ t', t' ≠ t → countersGet (c.generate_name t).1.counters t' = countersGet c.counters t') ∧
      (∀ (P spec S : List Char) (sp : IdSpec) (c' : Context),
         braceFreeL P = true → braceFreeL spec = true → braceFreeL S = true →
         parseIdSpec spec = Option.some sp →
         t = String.mk (idTemplate P spec S) →
         countersGet c.counters t ≠ countersGet c'.counters t →
         (c.generate_name t).2 ≠ (c'.generate_name t).2) := by
  intro c t
  refine ⟨?_, fun t' ht' => ?_, fun P spec S sp c' hP hspec hS hparse ht hne => ?_⟩
  · show countersGet (dictSet c.counters t (countersGet c.counters t + 1)) t = _
    unfold countersGet
    rw [dictGet_dictSet_self]
    rfl
  · show countersGet (dictSet c.counters t (countersGet c.counters t + 1)) t' = _
    unfold countersGet
    rw [dictGet_dictSet_ne _ _ _ _ ht']
  · subst ht
    intro heq
    have h1 : (c.generate_name (String.mk (idTemplate P spec S))).2
        = Except.ok (String.mk (P ++ (renderId sp
            (countersGet c.counters (String.mk (idTemplate P spec S)) + 1) ++ S))) := by
      show (match pyFormat (String.mk (idTemplate P spec S))
              (countersGet c.counters (String.mk (idTemplate P spec S)) + 1) with
            | Except.ok s => Except.ok s
            | Except.error _ => Except.error GenError.formatError) = _
      rw [pyFormat_idTemplate P spec S sp _ hP hspec hS hparse]
    have h2 : (c'.generate_name (String.mk (idTemplate P spec S))).2
        = Except.ok (String.mk (P ++ (renderId sp
            (countersGet c'.counters (String.mk (idTemplate P spec S)) + 1) ++ S))) := by
      show (match pyFormat (String.mk (idTemplate P spec S))
              (countersGet c'.counters (String.mk (idTemplate P spec S)) + 1) with
            | Except.ok s => Except.ok s
            | Except.error _ => Except.error GenError.formatError) = _
      rw [pyFormat_idTemplate P spec S sp _ hP hspec hS hparse]
    rw [h1, h2] at heq
    simp only [Except.ok.injEq] at heq
    have hlist : P ++ (renderId sp
          (countersGet c.counters (String.mk (idTemplate P spec S)) + 1) ++ S)
        = P ++ (renderId sp
          (countersGet c'.counters (String.mk (idTemplate P spec S)) + 1) ++ S) :=
      congrArg String.data heq
    have heq2 := List.append_cancel_right (List.append_cancel_left hlist)
    have := renderId_inj sp _ _ (by omega) (by omega) heq2
    omega

/-- C6 witness: on `beet:generated/thing_{id:08X}`, the first call uses
counter value 1 and a later call (counter 2) yields a different name. -/
theorem generate_name_monotonic_witness :
    countersGet (ctx0.generate_name tW).1.counters tW = countersGet ctx0.counters tW + 1 ∧
    (ctx0.generate_name tW).2 ≠ (cN1.generate_name tW).2 :=
  ⟨(generate_name_monotonic ctx0 tW).1,
   (generate_name_monotonic ctx0 tW).2.2 (("beet:generated/thing_").data) (("08X").data)
     ([]) ⟨true, 8, 2⟩ cN1 (by decide) (by decide) (by decide) rfl rfl (by decide)⟩

/-- C10 counterexample: the claim's "returns the template text unchanged"
fails as stated: the template `a{{b` contains no `{id}` placeholder, yet
`generate_name` returns `a{b` (the doubled brace collapses), not the
template text. -/
theorem generate_name_escape_cex :
    (ctx0.generate_name ("a\x7b\x7bb")).2 = Except.ok ("a\x7bb") ∧
    (("a\x7bb" : String) ≠ ("a\x7b\x7bb")) := ⟨rfl, by decide⟩

/-- C10 (amended): for every template string containing no brace characters
(hence no `{id}` placeholder and no brace escapes), `Context.generate_name`
still increments `counters[template]` on each call but returns the template
text unchanged, so successive calls with such a template return identical
names. -/
theorem generate_name_literal_template :
    ∀ (c : Context) (t : String), braceFreeL t.data = true →
      countersGet (c.generate_name t).1.counters t = countersGet c.counters t + 1 ∧
      (c.generate_name t).2 = Except.ok t := by
  intro c t h
  constructor
  · show countersGet (dictSet c.counters t (countersGet c.counters t + 1)) t = _
    unfold countersGet
    rw [dictGet_dictSet_self]
    rfl
  · show (match pyFormat t (countersGet c.counters t + 1) with
          | Except.ok s => Except.ok s
          | Except.error _ => Except.error GenError.formatError) = Except.ok t
    have hfmt : pyFormat t (countersGet c.counters t + 1) = Except.ok t := by
      show (match fmtGo (countersGet c.counters t + 1) t.data.length Option.none t.data with
            | Except.ok s => Except.ok (String.mk s)
            | Except.error e => Except.error e) = Except.ok t
      rw [fmtGo_literal_self t.data _ h]
    rw [hfmt]

/-- C10 witness: two successive calls on the brace-free template `abc` both
increment its counter and both return `abc`. -/
theorem generate_name_literal_template_witness :
    (countersGet (ctx0.generate_name ("abc")).1.counters ("abc")
       = countersGet ctx0.counters ("abc") + 1) ∧
    ((ctx0.generate_name ("abc")).2 = Except.ok ("abc")) ∧
    (((ctx0.generate_name ("abc")).1.generate_name ("abc")).2 = Except.ok ("abc")) :=
  ⟨(generate_name_literal_template ctx0 ("abc") (by decide)).1,
   (generate_name_literal_template ctx0 ("abc") (by decide)).2,
   (generate_name_literal_template (ctx0.generate_name ("abc")).1 ("abc") (by decide)).2⟩

/-! ## `Context.generate` step equations -/

theorem generate_none (c : Context) (item : Item)
    (h1 : item.type ∉ c.assets.container_fields)
    (h2 : item.type ∉ c.data.container_fields) :
    c.generate item = (c, Except.error GenError.stopIteration) := by
  unfold Context.generate
  rw [if_neg h1, if_neg h2]

theorem generate_assets_eq (c : Context) (item : Item) (t : String)
    (hassets : item.type ∈ c.assets.container_fields)
    (htpl : genTemplate c = Except.ok t) :
    c.generate item =
      (match (c.generate_name (strReplace t ("\x7btype\x7d") (strLower item.type.name))).2 with
       | Except.error e =>
         ((c.generate_name (strReplace t ("\x7btype\x7d") (strLower item.type.name))).1,
          Except.error e)
       | Except.ok name =>
         ({ (c.generate_name (strReplace t ("\x7btype\x7d") (strLower item.type.name))).1 with
            assets := packInsert
              (c.generate_name (strReplace t ("\x7btype\x7d") (strLower item.type.name))).1.assets
              name item },
          Except.ok name)) := by
  unfold Context.generate
  rw [if_pos hassets, htpl]
  rfl

theorem generate_data_eq (c : Context) (item : Item) (t : String)
    (hna : item.type ∉ c.assets.container_fields)
    (hdata : item.type ∈ c.data.container_fields)
    (htpl : genTemplate c = Except.ok t) :
    c.generate item =
      (match (c.generate_name (strReplace t ("\x7btype\x7d") (strLower item.type.name))).2 with
       | Except.error e =>
         ((c.generate_name (strReplace t ("\x7btype\x7d") (strLower item.type.name))).1,
          Except.error e)
       | Except.ok name =>
         ({ (c.generate_name (strReplace t ("\x7btype\x7d") (strLower item.type.name))).1 with
            data := packInsert
              (c.generate_name (strReplace t ("\x7btype\x7d") (strLower item.type.name))).1.data
              name item },
          Except.ok name)) := by
  unfold Context.generate
  rw [if_neg hna, if_pos hdata, htpl]
  rfl

/-- C7: `Context.generate(item)` fails with a lookup error when neither pack
declares the item's concrete type; the name template is
`meta["generate_template"]` when present (as a string), else the default
`beet:generated/{type}_{id:08X}`; on success the returned name is the one
allocated by `generate_name` on the template with `{type}` replaced by the
lowercased type name, and the item is stored under that name in the
selected pack (assets first, else data). -/
theorem generate_spec :
    ∀ (c : Context) (item : Item),
      (item.type ∉ c.assets.container_fields → item.type ∉ c.data.container_fields →
         c.generate item = (c, Except.error GenError.stopIteration)) ∧
      (dictGet c.meta ("generate_template") = Option.none →
         genTemplate c = Except.ok defaultTemplate) ∧
      (∀ s, dictGet c.meta ("generate_template") = Option.some (Val.str s) →
         genTemplate c = Except.ok s) ∧
      (∀ t name c', genTemplate c = Except.ok t →
         item.type ∈ c.assets.container_fields →
         c.generate item = (c', Except.ok name) →
         dictGet c'.assets.entries name = Option.some item ∧
         (c.generate_name (strReplace t ("\x7btype\x7d") (strLower item.type.name))).2
           = Except.ok name ∧
         c'.counters
           = (c.generate_name (strReplace t ("\x7btype\x7d") (strLower item.type.name))).1.counters) ∧
      (∀ t name c', genTemplate c = Except.ok t →
         item.type ∉ c.assets.container_fields →
         item.type ∈ c.data.container_fields →
         c.generate item = (c', Except.ok name) →
         dictGet c'.data.entries name = Option.some item ∧
         (c.generate_name (strReplace t ("\x7btype\x7d") (strLower item.type.name))).2
           = Except.ok name) := by
  intro c item
  refine ⟨generate_none c item, fun h => ?_, fun s h => ?_,
          fun t name c' htpl hassets hgen => ?_, fun t name c' htpl hna hdata hgen => ?_⟩
  · unfold genTemplate
    rw [h]
  · unfold genTemplate
    rw [h]
  · rw [generate_assets_eq c item t hassets htpl] at hgen
    split at hgen
    · rename_i e hr
      simp only [Prod.mk.injEq] at hgen
      cases hgen.2
    · rename_i name2 hr
      simp only [Prod.mk.injEq, Except.ok.injEq] at hgen
      obtain ⟨hc', hname⟩ := hgen
      subst hname
      rw [← hc']
      refine ⟨?_, hr, rfl⟩
      show dictGet (dictSet _ name2 item) name2 = Option.some item
      exact dictGet_dictSet_self _ _ _
  · rw [generate_data_eq c item t hna hdata htpl] at hgen
    split at hgen
    · rename_i e hr
      simp only [Prod.mk.injEq] at hgen
      cases hgen.2
    · rename_i name2 hr
      simp only [Prod.mk.injEq, Except.ok.injEq] at hgen
      obtain ⟨hc', hname⟩ := hgen
      subst hname
      rw [← hc']
      refine ⟨?_, hr⟩
      show dictGet (dictSet _ name2 item) name2 = Option.some item
      exact dictGet_dictSet_self _ _ _

/-- C7 witness: generating a `Function` item in a context whose assets pack
declares that type yields `beet:generated/function_00000001` (default
template, counter 1), stores the item there, and a context where neither
pack declares the type fails with the lookup error. -/
theorem generate_spec_witness :
    dictGet cG.assets.entries ("beet:generated/function_00000001") = Option.some itemW ∧
    (ctxG.generate_name
        (strReplace defaultTemplate ("\x7btype\x7d") (strLower itemW.type.name))).2
      = Except.ok ("beet:generated/function_00000001") ∧
    ctx0.generate itemW = (ctx0, Except.error GenError.stopIteration) :=
  ⟨((generate_spec ctxG itemW).2.2.2.1 defaultTemplate
      ("beet:generated/function_00000001") cG rfl (by decide) rfl).1,
   ((generate_spec ctxG itemW).2.2.2.1 defaultTemplate
      ("beet:generated/function_00000001") cG rfl (by decide) rfl).2.1,
   (generate_spec ctx0 itemW).1 (by decide) (by decide)⟩

end Beet
